import Mathlib

/-!
Verification of the fusion-workbook aggregation engine
(`utils/parser.py`, `utils/utils.py`, `scripts/generate_ref_sources.py`).

The Python code is shallowly embedded: pandas DataFrames become lists of
association-list rows over a `Value` type, fallible pandas operations
(KeyError on a missing column) return `Except String`, and in-place
mutation of a caller table (`df[col] = ...`) is made explicit by returning
the updated table alongside the result.  The free-text fusion extractor
(a Python regular expression with greedy backtracking) is embedded as a
direct backtracking scanner over `List Char`, restricted to ASCII input,
mirroring the leftmost, greedy, ordered-alternation semantics of `re`.
-/

namespace FusionWB

/-! ### Character classes used by the fusion-name pattern (ASCII model) -/

/-- Uppercase ASCII letter, the class used by the {2,} quantified gene-name head. -/
def isUpperAZ (c : Char) : Bool := 'A' ≤ c && c ≤ 'Z'

/-- Word character for the boundary assertion: ASCII letter, digit or underscore. -/
def isWordChar (c : Char) : Bool :=
  isUpperAZ c || ('a' ≤ c && c ≤ 'z') || ('0' ≤ c && c ≤ '9') || c = '_'

/-- Character admitted inside a gene token: word characters plus the dash. -/
def isTokenChar (c : Char) : Bool := isWordChar c || c = '-'

/-- Whitespace tolerated around the separator (ASCII subset of the regex class). -/
def isSpaceChar (c : Char) : Bool :=
  c = ' ' || c = '\t' || c = '\n' || c = '\r' || c = '\x0b' || c = '\x0c'

/-- The negative lookahead of the pattern: transcript accessions are rejected
when the text at the current position starts with NM_, NR_ or ENST. -/
def accessionAt (s : List Char) : Bool :=
  "NM_".toList.isPrefixOf s || "NR_".toList.isPrefixOf s || "ENST".toList.isPrefixOf s

/-! ### The backtracking matcher of `extract_fusions` (parser.py lines 48-86)

The pattern, with Python greedy/ordered-alternation semantics resolved:
a candidate first gene token is any prefix of length at least 2 of the
maximal token-character run beginning at the match position (longest
first), whose first two characters are uppercase; the separator
alternatives are tried in the order `::`, `--`, `-`; the second gene
token is the maximal token run after the separator, with trailing dashes
dropped by the final word-boundary assertion. -/

/-- Second-group match: lookahead, token run, trailing-dash trim for the
closing word boundary.  Returns the captured token (also the number of
characters consumed). -/
def matchG2 (s : List Char) : Option (List Char) :=
  if accessionAt s then none
  else
    match s.takeWhile isTokenChar with
    | c1 :: c2 :: rest =>
      if isUpperAZ c1 && isUpperAZ c2 then
        some (((c1 :: c2 :: rest).reverse.dropWhile (fun c => c = '-')).reverse)
      else none
    | _ => none

/-- Try one separator alternative at position `t`; on success return the
second token and the characters consumed from `t`. -/
def trySep (sep : List Char) (t : List Char) : Option (List Char × Nat) :=
  if sep.isPrefixOf t then
    let u := t.drop sep.length
    let sp2 := (u.takeWhile isSpaceChar).length
    match matchG2 (u.drop sp2) with
    | some g2 => some (g2, sep.length + sp2 + g2.length)
    | none => none
  else none

/-- After the first token: optional spaces, then the separator alternation
in source order `::`, `--`, `-`, then spaces and the second token.
Returns the second token and the characters consumed. -/
def matchSepG2 (s1 : List Char) : Option (List Char × Nat) :=
  let sp1 := (s1.takeWhile isSpaceChar).length
  let t := s1.drop sp1
  match trySep [':', ':'] t with
  | some (g2, k) => some (g2, sp1 + k)
  | none =>
    match trySep ['-', '-'] t with
    | some (g2, k) => some (g2, sp1 + k)
    | none =>
      match trySep ['-'] t with
      | some (g2, k) => some (g2, sp1 + k)
      | none => none

/-- Backtracking loop over the first-token length `L`, longest first,
stopping at length 2 (the {2,} quantifier). -/
def tryG1From (s : List Char) : Nat → Option (List Char × List Char × Nat)
  | 0 => none
  | 1 => none
  | Nat.succ (Nat.succ l) =>
    match matchSepG2 (s.drop (l + 2)) with
    | some (g2, k) => some (s.take (l + 2), g2, l + 2 + k)
    | none => tryG1From s (l + 1)

/-- Attempt a full match at the head of `s` (the word boundary before the
match is checked by the caller).  Returns both captured tokens and the
total number of characters the match consumes. -/
def attemptAt (s : List Char) : Option (List Char × List Char × Nat) :=
  if accessionAt s then none
  else
    match s.takeWhile isTokenChar with
    | c1 :: c2 :: rest =>
      if isUpperAZ c1 && isUpperAZ c2 then tryG1From s (rest.length + 2) else none
    | _ => none

/-- Scanner of `re.findall`: try each position left to right, skip positions
without a word boundary, continue after the end of each match.  `fuel`
bounds the recursion; one unit is spent per position or match. -/
def scanAux : Nat → Option Char → List Char → List (List Char × List Char)
  | 0, _, _ => []
  | _ + 1, _, [] => []
  | fuel + 1, prev, c :: rest =>
    let canStart := match prev with
      | none => true
      | some p => !isWordChar p
    if canStart then
      match attemptAt (c :: rest) with
      | some (g1, g2, k) =>
        (g1, g2) :: scanAux fuel (some (g2.getLastD 'A')) ((c :: rest).drop k)
      | none => scanAux fuel (some c) rest
    else scanAux fuel (some c) rest

/-- All matches of the fusion pattern in `s`, in scan order. -/
def findFusionPairs (s : List Char) : List (List Char × List Char) :=
  scanAux s.length none s

/-- Standardised spelling of one captured pair, mirroring the
f-string rewrite of the source. -/
def fusionString (g1 g2 : List Char) : String :=
  String.mk g1 ++ "--" ++ String.mk g2

/-- Embedding of `extract_fusions` (parser.py lines 48-86): `none` models a
null (NaN) argument; the falsy empty string also short-circuits; matches
are rewritten with a double-dash separator and deduplicated (Python
returns the members of a set, whose order is unspecified, so the result
is compared up to membership). -/
def extract_fusions (text : Option String) : List String :=
  match text with
  | none => []
  | some t =>
    if t = "" then []
    else (findFusionPairs t.toList |>.map (fun p => fusionString p.1 p.2)).dedup

/-! ### Cell values and rows of the DataFrame model -/

/-- A cell of a table: null (NaN), a string, an integer, a rational
(standing in for a float, all comparisons used by the code being exact),
or a list of strings (the exploded fusion-name column of the
previous-positives registry). -/
inductive Value : Type
  | vNull : Value
  | vStr (s : String) : Value
  | vInt (n : Int) : Value
  | vRat (q : ℚ) : Value
  | vStrList (l : List String) : Value
  deriving DecidableEq, Repr

/-- A row is an association list from column name to value; the first
binding of a name wins, like the single visible column of a frame. -/
abbrev Row := List (String × Value)

/-- Value of column `c` in row `r`; `none` when the column is absent. -/
def getVal : Row → String → Option Value
  | [], _ => none
  | (c, v) :: r, c' => if c = c' then some v else getVal r c'

/-- Value of column `c`, with absence read as null. -/
def getValD (r : Row) (c : String) : Value := (getVal r c).getD Value.vNull

/-- Column assignment on one row: replace the first binding of `c`, or
append one (a fresh pandas column lands after the existing ones). -/
def updateVal : Row → String → Value → Row
  | [], c, v => [(c, v)]
  | (c0, v0) :: r, c, v => if c0 = c then (c, v) :: r else (c0, v0) :: updateVal r c v

/-- A table: column order plus rows. -/
structure DataFrame : Type where
  cols : List String
  rows : List Row
  deriving DecidableEq, Repr

/-- `pd.DataFrame()`. -/
def DataFrame.empty : DataFrame := ⟨[], []⟩

/-- `df.empty`: a frame with no rows (covers the no-columns case too). -/
def DataFrame.isEmpty (df : DataFrame) : Bool := df.rows.isEmpty

/-! ### List helpers shared by several operations -/

/-- Tail of the first-occurrence filter: drop elements already seen. -/
def firstOccAux {α : Type} [DecidableEq α] (seen : List α) : List α → List α
  | [] => []
  | a :: l => if a ∈ seen then firstOccAux seen l else a :: firstOccAux (a :: seen) l

/-- Keep the first occurrence of each element (`drop_duplicates`, and the
group-key order used before an explicit output sort). -/
def firstOcc {α : Type} [DecidableEq α] (l : List α) : List α := firstOccAux [] l

/-- First non-null entry of a column slice, as `GroupBy.first` computes it;
null when every entry is null. -/
def firstNonNull (l : List Value) : Value :=
  (l.filter (fun v => decide (v ≠ Value.vNull))).headD Value.vNull

/-- Codepoint key giving the lexicographic string order that Python
`sorted` uses. -/
def strKey (s : String) : List ℕ := s.data.map Char.toNat

/-- `sorted` on a list of strings. -/
def sortStrings (l : List String) : List String :=
  l.insertionSort (fun a b => strKey a ≤ strKey b)

/-! ### Sorting rows (`sort_values`)

A row is compared by the listed columns through a key in a lexicographic
product: rank (placing null first or last per `na_position`), numeric
payload, string payload.  The embedded sort is stable; `sort_values`
uses an unstable quicksort, so only properties independent of the order
of exact ties are claimed downstream. -/

/-- Rank separating nulls from numerics from strings. -/
def valueRank (naFirst : Bool) : Value → ℕ
  | Value.vNull => if naFirst then 0 else 4
  | Value.vInt _ => 1
  | Value.vRat _ => 1
  | Value.vStr _ => 2
  | Value.vStrList _ => 3

/-- Numeric payload of a value. -/
def valueQ : Value → ℚ
  | Value.vInt n => (n : ℚ)
  | Value.vRat q => q
  | _ => 0

/-- String payload of a value. -/
def valueStrKey : Value → List ℕ
  | Value.vStr s => strKey s
  | _ => []

/-- Sort key of one cell. -/
def valueKey (naFirst : Bool) (v : Value) : ℕ ×ₗ ℚ ×ₗ List ℕ :=
  toLex (valueRank naFirst v, toLex (valueQ v, valueStrKey v))

/-- Sort key of a row under the listed columns. -/
def rowKey (naFirst : Bool) (cols : List String) (r : Row) : List (ℕ ×ₗ ℚ ×ₗ List ℕ) :=
  cols.map (fun c => valueKey naFirst (getValD r c))

/-- Row comparison used by the embedded `sort_values`. -/
def rowLe (naFirst : Bool) (cols : List String) (a b : Row) : Prop :=
  rowKey naFirst cols a ≤ rowKey naFirst cols b

instance (naFirst : Bool) (cols : List String) : DecidableRel (rowLe naFirst cols) :=
  fun _a _b => inferInstanceAs (Decidable (_ ≤ _))

/-- Missing-column check; returns the first column of `cs` absent from
`cols`, mirroring the KeyError pandas raises. -/
def findMissing (cs : List String) (cols : List String) : Option String :=
  cs.find? (fun c => !cols.contains c)

/-- Fallible map stopping at the first error (the effect `List.mapM` has
in `Except`, stated structurally). -/
def mapE {α β : Type} (f : α → Except String β) : List α → Except String (List β)
  | [] => Except.ok []
  | a :: l =>
    match f a with
    | Except.error e => Except.error e
    | Except.ok b =>
      match mapE f l with
      | Except.error e => Except.error e
      | Except.ok bs => Except.ok (b :: bs)

/-- `df.sort_values(by=cols)`; KeyError on a missing column. -/
def sortValuesE (df : DataFrame) (cols : List String) (naFirst : Bool) :
    Except String DataFrame :=
  match findMissing cols df.cols with
  | some c => Except.error ("KeyError: " ++ c)
  | none => Except.ok ⟨df.cols, df.rows.insertionSort (rowLe naFirst cols)⟩

/-! ### Column-level operations -/

/-- `df[cs]`: keep the listed columns in the listed order. -/
def selectColsE (df : DataFrame) (cs : List String) : Except String DataFrame :=
  match findMissing cs df.cols with
  | some c => Except.error ("KeyError: " ++ c)
  | none => Except.ok ⟨cs, df.rows.map (fun r => cs.map (fun c => (c, getValD r c)))⟩

/-- `df.rename(columns=...)`: silently a no-op when the old name is absent. -/
def renameCol (df : DataFrame) (old new : String) : DataFrame :=
  ⟨df.cols.map (fun c => if c = old then new else c),
   df.rows.map (fun r => r.map (fun p => if p.1 = old then (new, p.2) else p))⟩

/-- `df[dst] = df[src].apply(f)`: computed column assigned in place;
KeyError when the source column is absent, and `f` itself may fail
(IndexError inside the applied function). -/
def applyColE (df : DataFrame) (src dst : String) (f : Value → Except String Value) :
    Except String DataFrame :=
  if src ∈ df.cols then
    match mapE (fun r =>
        match f (getValD r src) with
        | Except.error e => Except.error e
        | Except.ok v => Except.ok (updateVal r dst v)) df.rows with
    | Except.error e => Except.error e
    | Except.ok rows =>
      Except.ok ⟨if dst ∈ df.cols then df.cols else df.cols ++ [dst], rows⟩
  else Except.error ("KeyError: " ++ src)

/-- String concatenation of two cells (`df[a] + sep + df[b]`): null
propagates, anything non-string raises. -/
def concatStrVals (sep : String) : Value → Value → Except String Value
  | Value.vNull, _ => Except.ok Value.vNull
  | _, Value.vNull => Except.ok Value.vNull
  | Value.vStr x, Value.vStr y => Except.ok (Value.vStr (x ++ sep ++ y))
  | _, _ => Except.error "TypeError: concat"

/-- `df[dst] = df[c1] + sep + df[c2]`. -/
def concatColsE (df : DataFrame) (c1 c2 dst sep : String) : Except String DataFrame :=
  if c1 ∈ df.cols then
    if c2 ∈ df.cols then
      match mapE (fun r =>
          match concatStrVals sep (getValD r c1) (getValD r c2) with
          | Except.error e => Except.error e
          | Except.ok v => Except.ok (updateVal r dst v)) df.rows with
      | Except.error e => Except.error e
      | Except.ok rows =>
        Except.ok ⟨if dst ∈ df.cols then df.cols else df.cols ++ [dst], rows⟩
    else Except.error ("KeyError: " ++ c2)
  else Except.error ("KeyError: " ++ c1)

/-- Replace nulls of one column (`df[c] = df[c].fillna(d)`). -/
def fillnaColE (df : DataFrame) (c : String) (d : Value) : Except String DataFrame :=
  if c ∈ df.cols then
    Except.ok ⟨df.cols, df.rows.map (fun r =>
      updateVal r c (if getValD r c = Value.vNull then d else getValD r c))⟩
  else Except.error ("KeyError: " ++ c)

/-- `.astype(int)` on one column; the values reaching this step are whole. -/
def astypeIntColE (df : DataFrame) (c : String) : Except String DataFrame :=
  if c ∈ df.cols then
    Except.ok ⟨df.cols, df.rows.map (fun r =>
      updateVal r c (match getValD r c with
        | Value.vInt n => Value.vInt n
        | Value.vRat q => Value.vInt q.floor
        | v => v))⟩
  else Except.error ("KeyError: " ++ c)

/-! ### Merge (`how="left"`) and grouping -/

/-- Left merge on one key column.  A null key matches nothing (NaN never
equals NaN in a pandas merge); an unmatched left row is padded with
nulls; a matched left row is repeated once per matching right row.  The
non-key right columns are assumed distinct from the left ones (the only
situation the code creates; pandas would otherwise suffix both). -/
def mergeLeft (left right : DataFrame) (key : String) : Except String DataFrame :=
  if key ∈ left.cols then
    if key ∈ right.cols then
      let rcols := right.cols.filter (fun c => decide (c ≠ key))
      Except.ok ⟨left.cols ++ rcols,
        left.rows.flatMap (fun r =>
          let v := getValD r key
          let ms := right.rows.filter (fun rr =>
            decide (v ≠ Value.vNull) && decide (getValD rr key = v))
          if ms.isEmpty then [r ++ rcols.map (fun c => (c, Value.vNull))]
          else ms.map (fun rr => r ++ rcols.map (fun c => (c, getValD rr c))))⟩
    else Except.error ("KeyError: " ++ key)
  else Except.error ("KeyError: " ++ key)

/-- Group key of a row: the tuple of its key-column values (a missing
column reads as null; `dropna=False` keeps null keys as a group). -/
def keyOf (keys : List String) (r : Row) : List Value :=
  keys.map (fun c => getValD r c)

/-- One output row of `groupby(keys)[vals].first()`: the key columns
followed by, per value column, the first non-null entry of the group. -/
def buildRow (keys vals : List String) (rows : List Row) (k : List Value) : Row :=
  let grp := rows.filter (fun r => decide (keyOf keys r = k))
  keys.zip k ++ vals.map (fun c => (c, firstNonNull (grp.map (fun r => getValD r c))))

/-- `df.groupby(keys, dropna=False)[vals].first()`, flattened (the group
keys stay as ordinary columns).  Groups appear in first-occurrence
order; the callers order the output by an explicit later sort. -/
def groupbyFirstE (keys vals : List String) (df : DataFrame) : Except String DataFrame :=
  match findMissing keys df.cols with
  | some c => Except.error ("KeyError: " ++ c)
  | none =>
    match findMissing vals df.cols with
    | some c => Except.error ("KeyError: " ++ c)
    | none =>
      Except.ok ⟨keys ++ vals,
        (firstOcc (df.rows.map (keyOf keys))).map (buildRow keys vals df.rows)⟩

/-- `pd.concat`: rows appended, columns unioned in first-appearance order. -/
def concatFrames (dfs : List DataFrame) : DataFrame :=
  ⟨firstOcc (dfs.flatMap (fun d => d.cols)), dfs.flatMap (fun d => d.rows)⟩

/-! ### Identity normalizer (parser.py lines 16-45) -/

/-- `str.split(sep)` for a one-character separator: never empty, one more
group than separators. -/
def splitChar (sep : Char) : List Char → List (List Char)
  | [] => [[]]
  | c :: r =>
    if c = sep then [] :: splitChar sep r
    else
      match splitChar sep r with
      | [] => [[c]]
      | g :: gs => (c :: g) :: gs

/-- `parse_specimen_id`: second hyphen-delimited field of the sample name;
`none` models the IndexError raised when fewer than two fields exist. -/
def parse_specimen_id (s : String) : Option String :=
  ((splitChar '-' s.toList).map (fun g => String.mk g))[1]?

/-- `parse_igv_specimen_name`: first three hyphen-delimited fields joined
back with hyphens (total, split never returns an empty list). -/
def parse_igv_specimen_name (s : String) : String :=
  String.intercalate "-" (((splitChar '-' s.toList).map (fun g => String.mk g)).take 3)

/-- `parse_specimen_id` lifted to a cell, as `.apply` uses it: a
non-string cell or a name without a second field raises. -/
def specimenValue : Value → Except String Value
  | Value.vStr s =>
    match parse_specimen_id s with
    | some sp => Except.ok (Value.vStr sp)
    | none => Except.error "IndexError: specimen"
  | _ => Except.error "TypeError: specimen"

/-- `parse_igv_specimen_name` lifted to a cell. -/
def igvValue : Value → Except String Value
  | Value.vStr s => Except.ok (Value.vStr (parse_igv_specimen_name s))
  | _ => Except.error "TypeError: igv name"

/-! ### Source reader (utils.py `read_dxfile`, parser.py lines 184-266)

A DNAnexus file is abstracted as either a table it parses to (with its
name) or a failing read.  The worker pool of `_parse_fusion_files`
gathers results in submission order, so the concurrent batch read is
deterministic up to per-file failure. -/

/-- Abstract input file. -/
inductive DXFile : Type
  | good (name : String) (df : DataFrame) : DXFile
  | bad (msg : String) : DXFile
  deriving DecidableEq

/-- `read_dxfile` with `include_fname=True`: the parsed table with the
file name inserted as first column. -/
def read_dxfile : DXFile → Except String DataFrame
  | DXFile.good name df =>
    Except.ok ⟨"file_name" :: df.cols,
      df.rows.map (fun r => ("file_name", Value.vStr name) :: r)⟩
  | DXFile.bad m => Except.error m

/-- `_parse_fusion_files`: an empty batch gives an empty frame, a failed
file is logged and skipped, the survivors are concatenated. -/
def _parse_fusion_files (files : List DXFile) : DataFrame :=
  if files.isEmpty then DataFrame.empty
  else
    let results := files.filterMap (fun f => (read_dxfile f).toOption)
    if results.isEmpty then DataFrame.empty else concatFrames results

/-- `parse_star_fusion`: same as the shared helper. -/
def parse_star_fusion (files : List DXFile) : DataFrame :=
  _parse_fusion_files files

/-- Origin-filename rewrite of `parse_fusion_inspector`: prefix before the
first underscore plus the companion predictor suffix; null propagates
through the `.str` accessor, and so does any non-string cell. -/
def fiNameValue : Value → Value
  | Value.vStr s =>
    Value.vStr (String.mk (s.toList.takeWhile (fun c => !(c = '_')))
      ++ "_FusionInspector.fusions.abridged.merged.tsv")
  | _ => Value.vNull

/-- `parse_fusion_inspector`: batch read, filename rewrite (a KeyError on
the empty frame of a zero-file batch), sort by the two read-support
columns (`sort_values` default: ascending, nulls last), duplicate rows
dropped keeping the first. -/
def parse_fusion_inspector (files : List DXFile) : Except String DataFrame :=
  match applyColE (_parse_fusion_files files) "file_name" "file_name"
      (fun v => Except.ok (fiNameValue v)) with
  | Except.error e => Except.error e
  | Except.ok df =>
    match sortValuesE df ["JunctionReadCount", "SpanningFragCount"] false with
    | Except.error e => Except.error e
    | Except.ok ds => Except.ok ⟨ds.cols, firstOcc ds.rows⟩

/-! ### Pivot configuration (defaults.py) -/

/-- The part of a pivot-configuration mapping the embedded operations
consume: grouping keys, value columns, and the margins flag of
`create_pivot_table`. -/
structure PivotConfig : Type where
  index : List String
  values : List String
  addTotalRow : Bool := false
  deriving DecidableEq

/-- `SF_PIVOT_CONFIG` (defaults.py lines 104-166), the fields the pivot
uses; the per-column `aggfunc` mapping is uniformly `first` and the code
applies `.first()` regardless. -/
def SF_PIVOT_CONFIG : PivotConfig where
  index := ["Filename", "SPECIMEN", "Unique Reads(M)", "Duplicate Reads(M)", "LEFTRIGHT"]
  values := ["FFPM", "FRAME", "Count_predicted", "SpanningFragCount", "JunctionReadCount",
    "#FusionName", "LeftBreakpoint", "RightBreakpoint", "ReferenceSources",
    "PreviousPositives"]
  addTotalRow := false

/-- `FASTQC_PIVOT_CONFIG` (defaults.py lines 86-102), the fields the pivot
uses. -/
def FASTQC_PIVOT_CONFIG : PivotConfig where
  index := ["SPECIMEN"]
  values := ["Duplicate Reads(M)", "Unique Reads(M)"]
  addTotalRow := true

/-! ### FastQC pivot (utils.py `create_pivot_table`, parser.py lines 161-181) -/

/-- Numeric sum of the non-null entries of a column slice (skipna; the
empty sum is integer zero, as in pandas). -/
def sumValues (l : List Value) : Value :=
  l.foldl (fun acc v =>
    match acc, v with
    | Value.vInt a, Value.vInt b => Value.vInt (a + b)
    | Value.vInt a, Value.vRat b => Value.vRat ((a : ℚ) + b)
    | Value.vRat a, Value.vInt b => Value.vRat (a + (b : ℚ))
    | Value.vRat a, Value.vRat b => Value.vRat (a + b)
    | a, _ => a) (Value.vInt 0)

/-- `pivot_table(index, values, aggfunc="sum")`: rows with a null group
key are dropped (`dropna=True`), groups aggregate by column sums, and
`margins` appends a Total row.  Groups appear in first-occurrence order
(pandas orders them by key; nothing downstream reads the row order). -/
def create_pivot_table (df : DataFrame) (cfg : PivotConfig) : Except String DataFrame :=
  match findMissing (cfg.index ++ cfg.values) df.cols with
  | some c => Except.error ("KeyError: " ++ c)
  | none =>
    let kept := df.rows.filter (fun r =>
      (keyOf cfg.index r).all (fun v => decide (v ≠ Value.vNull)))
    let body := (firstOcc (kept.map (keyOf cfg.index))).map (fun k =>
      let grp := kept.filter (fun r => decide (keyOf cfg.index r = k))
      cfg.index.zip k ++ cfg.values.map (fun c =>
        (c, sumValues (grp.map (fun r => getValD r c)))))
    let total : Row :=
      (match cfg.index with
        | [] => []
        | c :: rest => (c, Value.vStr "Total") :: rest.map (fun c2 => (c2, Value.vNull)))
      ++ cfg.values.map (fun c => (c, sumValues (kept.map (fun r => getValD r c))))
    Except.ok ⟨cfg.index ++ cfg.values, if cfg.addTotalRow then body ++ [total] else body⟩

/-- `make_fastqc_pivot`: derives SPECIMEN in place on the frame of the caller,
then pivots.  Returns the pivot together with the state of the input
frame after the call (the assignment `df["SPECIMEN"] = ...` is visible
to the caller). -/
def make_fastqc_pivot (df : DataFrame) (cfg : PivotConfig) :
    Except String (DataFrame × DataFrame) :=
  match applyColE df "Sample" "SPECIMEN" specimenValue with
  | Except.error e => Except.error e
  | Except.ok df' =>
    match create_pivot_table df' cfg with
    | Except.error e => Except.error e
    | Except.ok p => Except.ok (p, df')

/-! ### The join phase of `make_sf_pivot` (parser.py lines 289-400) -/

/-- Historical-count step (lines 334-341, the guarded branch): select the
two registry columns, left-merge on fusion name, then fill unmatched
rows with integer zero. -/
def mergeHistorical (df runs : DataFrame) : Except String DataFrame :=
  match selectColsE runs ["#FusionName", "Count_predicted"] with
  | Except.error e => Except.error e
  | Except.ok runsSel =>
    match mergeLeft df runsSel "#FusionName" with
    | Except.error e => Except.error e
    | Except.ok m =>
      match fillnaColE m "Count_predicted" (Value.vInt 0) with
      | Except.error e => Except.error e
      | Except.ok m2 => astypeIntColE m2 "Count_predicted"

/-- The previous-positives registry after select, rename, explode and
dropna (lines 355-360): one (fusion value, specimen value) pair per
exploded entry.  An empty or null fusion list contributes nothing. -/
def prevPosPairs (pp : DataFrame) : List (Value × Value) :=
  pp.rows.flatMap (fun r =>
    let sp := getValD r "Specimen Identifier"
    match getValD r "#FusionName" with
    | Value.vStrList l => l.map (fun g => (Value.vStr g, sp))
    | Value.vNull => []
    | v => [(v, sp)])

/-- The grouped aggregation of lines 361-365: per fusion, the comma-join
of the **sorted but not deduplicated** specimen labels.  A non-string
label raises, as `",".join` would. -/
def prevPosAggE (pp : DataFrame) : Except String (List (Value × String)) :=
  mapE (fun k =>
    match mapE (fun p =>
        match p.2 with
        | Value.vStr s => Except.ok s
        | _ => Except.error "TypeError: join")
        ((prevPosPairs pp).filter (fun p => decide (p.1 = k))) with
    | Except.error e => Except.error e
    | Except.ok labels => Except.ok (k, String.intercalate "," (sortStrings labels)))
    (firstOcc ((prevPosPairs pp).map (fun p => p.1)))

/-- Previous-positives step (lines 354-367): aggregate the registry, left
merge on fusion name, fill unmatched rows with the empty string.  The
column selection raises when the registry lacks the two columns. -/
def aggFrame (agg : List (Value × String)) : DataFrame :=
  ⟨["#FusionName", "PreviousPositives"],
    agg.map (fun p => [("#FusionName", p.1), ("PreviousPositives", Value.vStr p.2)])⟩

def mergePrevPos (df pp : DataFrame) : Except String DataFrame :=
  match findMissing ["Specimen Identifier", "#FusionName"] pp.cols with
  | some c => Except.error ("KeyError: " ++ c)
  | none =>
    match prevPosAggE pp with
    | Except.error e => Except.error e
    | Except.ok agg =>
      match mergeLeft df (aggFrame agg) "#FusionName" with
      | Except.error e => Except.error e
      | Except.ok m => fillnaColE m "PreviousPositives" (Value.vStr "")

/-- Reference-sources step (lines 369-375): rename the registry key, left
merge on fusion name, fill unmatched rows with the empty string.  No
empty-input guard and no aggregation here. -/
def mergeRefSources (df refs : DataFrame) : Except String DataFrame :=
  match mergeLeft df (renameCol refs "Fusion" "#FusionName") "#FusionName" with
  | Except.error e => Except.error e
  | Except.ok m => fillnaColE m "ReferenceSources" (Value.vStr "")

/-- Lines 377-383: sort by FFPM ascending with nulls first, group by the
configured keys taking the first (non-null) entry per value column, then
order the summary by specimen and breakpoint pair. -/
def sortGroupFirst (cfg : PivotConfig) (df : DataFrame) : Except String DataFrame :=
  match sortValuesE df ["FFPM"] true with
  | Except.error e => Except.error e
  | Except.ok ds =>
    match groupbyFirstE cfg.index cfg.values ds with
    | Except.error e => Except.error e
    | Except.ok p => sortValuesE p ["SPECIMEN", "LEFTRIGHT"] true

/-- The hard-coded final column selection of lines 385-398. -/
def finalCols : List String :=
  ["LeftBreakpoint", "#FusionName", "RightBreakpoint", "JunctionReadCount",
   "SpanningFragCount", "Count_predicted", "ReferenceSources", "PreviousPositives",
   "FRAME", "FFPM"]

/-- Specimen and display-name derivation of lines 325-328 (the branch
guarded by the presence of the origin-filename column). -/
def deriveNames (df : DataFrame) : Except String DataFrame :=
  if "file_name" ∈ df.cols then
    match applyColE df "file_name" "SPECIMEN" specimenValue with
    | Except.error e => Except.error e
    | Except.ok d1 => applyColE d1 "file_name" "Filename" igvValue
  else Except.ok df

/-- The Fusion Inspector merge of lines 348-352, returning both the
augmented primary frame and the mutated `fi_df`. -/
def mergeFI (df fi_df : DataFrame) : Except String (DataFrame × DataFrame) :=
  if fi_df.isEmpty then Except.ok (df, fi_df)
  else
    match concatColsE fi_df "LeftBreakpoint" "RightBreakpoint" "LEFTRIGHT" "_" with
    | Except.error e => Except.error e
    | Except.ok fi2 =>
      match selectColsE fi2 ["LEFTRIGHT", "PROT_FUSION_TYPE"] with
      | Except.error e => Except.error e
      | Except.ok fiSel =>
        match mergeLeft df fiSel "LEFTRIGHT" with
        | Except.error e => Except.error e
        | Except.ok m => Except.ok (renameCol m "PROT_FUSION_TYPE" "FRAME", fi2)

/-- `make_sf_pivot` (lines 289-400).  The primary frame is copied, so the
`sf_df` of the caller is never touched; `fi_df`, in contrast, gains a
LEFTRIGHT column in place when non-empty, so the pair returned carries
the state of the Fusion Inspector frame of the caller after the call.  Each
optional source is merged only when non-empty; the pivot then selects
the configured value columns whether or not the guarded merges created
them.  The group keys stay attached to the summary rows (they form the
MultiIndex of the pandas result). -/
def make_sf_pivot (sf_df sf_runs_df fastqc_pivot_df fi_df prev_pos ref_sources : DataFrame)
    (cfg : PivotConfig) : Except String (DataFrame × DataFrame) :=
  match deriveNames sf_df with
  | Except.error e => Except.error e
  | Except.ok d1 =>
    match concatColsE d1 "SPECIMEN" "#FusionName" "ID" "_" with
    | Except.error e => Except.error e
    | Except.ok d2 =>
      match concatColsE d2 "LeftBreakpoint" "RightBreakpoint" "LEFTRIGHT" "_" with
      | Except.error e => Except.error e
      | Except.ok d3 =>
        match (if sf_runs_df.isEmpty then Except.ok d3
            else mergeHistorical d3 sf_runs_df) with
        | Except.error e => Except.error e
        | Except.ok d4 =>
          match (if fastqc_pivot_df.isEmpty then Except.ok d4
              else mergeLeft d4 fastqc_pivot_df "SPECIMEN") with
          | Except.error e => Except.error e
          | Except.ok d5 =>
            match mergeFI d5 fi_df with
            | Except.error e => Except.error e
            | Except.ok fiRes =>
              match mergePrevPos fiRes.1 prev_pos with
              | Except.error e => Except.error e
              | Except.ok d6 =>
                match mergeRefSources d6 ref_sources with
                | Except.error e => Except.error e
                | Except.ok d7 =>
                  match sortGroupFirst cfg d7 with
                  | Except.error e => Except.error e
                  | Except.ok p =>
                    match selectColsE p (cfg.index ++ finalCols) with
                    | Except.error e => Except.error e
                    | Except.ok p2 => Except.ok (p2, fiRes.2)

/-! ### `generate_ref_source` aggregation (generate_ref_sources.py lines 155-169) -/

/-- The combined (Fusion, ReferenceSources) rows of the three readers,
grouped by fusion with the source labels of each group **deduplicated and
sorted** before the comma-join, mirroring
`groupby("Fusion")["ReferenceSources"].apply(lambda x: ",".join(sorted(set(x))))`.
Groups appear in first-occurrence order (pandas sorts them by key;
every claim about the result is per key). -/
def generate_ref_source (pairs : List (String × String)) : List (String × String) :=
  (firstOcc (pairs.map (fun p => p.1))).map (fun k =>
    (k, String.intercalate "," (sortStrings
      (firstOcc ((pairs.filter (fun p => decide (p.1 = k))).map (fun p => p.2))))))

/-! ### Concrete tables used to evaluate the embedded pipeline -/

/-- Column vocabulary of a STAR-Fusion frame as the batch reader returns it. -/
def sfCols : List String :=
  ["file_name", "#FusionName", "LeftBreakpoint", "RightBreakpoint",
   "JunctionReadCount", "SpanningFragCount", "FFPM"]

/-- One predictor observation row. -/
def sfRow (fusion : Value) (j s : Int) (ffpm : ℚ) : Row :=
  [("file_name", Value.vStr "RUN-SPEC1-PANEL_S1_L001"), ("#FusionName", fusion),
   ("LeftBreakpoint", Value.vStr "chr1:100"), ("RightBreakpoint", Value.vStr "chr2:200"),
   ("JunctionReadCount", Value.vInt j), ("SpanningFragCount", Value.vInt s),
   ("FFPM", Value.vRat ffpm)]

/-- Empty historical table (columns only). -/
def runsEmpty : DataFrame := ⟨["#FusionName", "Count_predicted"], []⟩

/-- Historical table holding fusion A--B with count 7. -/
def runsOne : DataFrame :=
  ⟨["#FusionName", "Count_predicted"],
   [[("#FusionName", Value.vStr "A--B"), ("Count_predicted", Value.vInt 7)]]⟩

/-- A FastQC pivot frame for specimen SPEC1. -/
def fqcOne : DataFrame :=
  ⟨["SPECIMEN", "Unique Reads(M)", "Duplicate Reads(M)"],
   [[("SPECIMEN", Value.vStr "SPEC1"), ("Unique Reads(M)", Value.vRat 1),
     ("Duplicate Reads(M)", Value.vRat 2)]]⟩

/-- Empty Fusion Inspector table (columns only). -/
def fiEmpty : DataFrame := ⟨["LeftBreakpoint", "RightBreakpoint", "PROT_FUSION_TYPE"], []⟩

/-- Fusion Inspector table annotating the shared breakpoint pair. -/
def fiOne : DataFrame :=
  ⟨["LeftBreakpoint", "RightBreakpoint", "PROT_FUSION_TYPE"],
   [[("LeftBreakpoint", Value.vStr "chr1:100"), ("RightBreakpoint", Value.vStr "chr2:200"),
     ("PROT_FUSION_TYPE", Value.vStr "INFRAME")]]⟩

/-- Empty previous-positives registry (columns only). -/
def ppEmpty : DataFrame := ⟨["Specimen Identifier", "#FusionName"], []⟩

/-- Previous-positives registry with one entry for A--B. -/
def ppOne : DataFrame :=
  ⟨["Specimen Identifier", "#FusionName"],
   [[("Specimen Identifier", Value.vStr "SP9"), ("#FusionName", Value.vStrList ["A--B"])]]⟩

/-- Previous-positives registry listing the same specimen twice for A--B. -/
def ppDup : DataFrame :=
  ⟨["Specimen Identifier", "#FusionName"],
   [[("Specimen Identifier", Value.vStr "SP1"), ("#FusionName", Value.vStrList ["A--B"])],
    [("Specimen Identifier", Value.vStr "SP1"), ("#FusionName", Value.vStrList ["A--B"])]]⟩

/-- Reference-sources registry mapping A--B to DB1. -/
def refsOne : DataFrame :=
  ⟨["Fusion", "ReferenceSources"],
   [[("Fusion", Value.vStr "A--B"), ("ReferenceSources", Value.vStr "DB1")]]⟩

/-- The end-to-end scenario predictor table: one A--B observation. -/
def sfScenario : DataFrame := ⟨sfCols, [sfRow (Value.vStr "A--B") 10 5 1]⟩

/-- Predictor table with two observations of one (specimen, breakpoint)
group: the lower-abundance row has a null fusion name. -/
def sfTwoRows : DataFrame :=
  ⟨sfCols, [sfRow Value.vNull 10 5 1, sfRow (Value.vStr "A--B") 99 42 2]⟩

/-- A raw FastQC frame as handed to `make_fastqc_pivot`. -/
def fqcRaw : DataFrame :=
  ⟨["Sample", "Unique Reads(M)", "Duplicate Reads(M)"],
   [[("Sample", Value.vStr "RUN-SPEC1-X"), ("Unique Reads(M)", Value.vInt 1),
     ("Duplicate Reads(M)", Value.vInt 2)]]⟩

/-- `fqcRaw` after the call: the SPECIMEN column has been added in place. -/
def fqcRawAfter : DataFrame :=
  ⟨["Sample", "Unique Reads(M)", "Duplicate Reads(M)", "SPECIMEN"],
   [[("Sample", Value.vStr "RUN-SPEC1-X"), ("Unique Reads(M)", Value.vInt 1),
     ("Duplicate Reads(M)", Value.vInt 2), ("SPECIMEN", Value.vStr "SPEC1")]]⟩

/-- `fiOne` after `make_sf_pivot`: the LEFTRIGHT column has been added in
place. -/
def fiOneAfter : DataFrame :=
  ⟨["LeftBreakpoint", "RightBreakpoint", "PROT_FUSION_TYPE", "LEFTRIGHT"],
   [[("LeftBreakpoint", Value.vStr "chr1:100"), ("RightBreakpoint", Value.vStr "chr2:200"),
     ("PROT_FUSION_TYPE", Value.vStr "INFRAME"),
     ("LEFTRIGHT", Value.vStr "chr1:100_chr2:200")]]⟩

/-- A one-row primary frame whose fusion X--Y matches no registry. -/
def c5df : DataFrame := ⟨["#FusionName"], [[("#FusionName", Value.vStr "X--Y")]]⟩

/-- A two-row Fusion Inspector file for the batch reader. -/
def fiFile : DXFile :=
  DXFile.good "S1_abc.tsv"
    ⟨["JunctionReadCount", "SpanningFragCount"],
     [[("JunctionReadCount", Value.vInt 10), ("SpanningFragCount", Value.vInt 5)],
      [("JunctionReadCount", Value.vInt 1), ("SpanningFragCount", Value.vInt 2)]]⟩

/-! ### Basic lemmas about the row and list primitives -/

theorem getVal_append_left {r1 : Row} {c : String} {v : Value} (r2 : Row)
    (h : getVal r1 c = some v) : getVal (r1 ++ r2) c = some v := by
  induction r1 with
  | nil => simp [getVal] at h
  | cons p r ih =>
    obtain ⟨c0, v0⟩ := p
    by_cases hc : c0 = c
    · simpa [getVal, hc] using by simpa [getVal, hc] using h
    · simp only [getVal, List.cons_append, if_neg hc] at h ⊢
      exact ih h

theorem getVal_append_right {r1 : Row} {c : String} (r2 : Row)
    (h : getVal r1 c = none) : getVal (r1 ++ r2) c = getVal r2 c := by
  induction r1 with
  | nil => simp [getVal]
  | cons p r ih =>
    obtain ⟨c0, v0⟩ := p
    by_cases hc : c0 = c
    · simp [getVal, hc] at h
    · simp only [getVal, List.cons_append, if_neg hc] at h ⊢
      exact ih h

theorem getVal_updateVal_self (r : Row) (c : String) (v : Value) :
    getVal (updateVal r c v) c = some v := by
  induction r with
  | nil => simp [updateVal, getVal]
  | cons p r ih =>
    obtain ⟨c0, v0⟩ := p
    by_cases hc : c0 = c
    · simp [updateVal, hc, getVal]
    · simp [updateVal, hc, getVal, ih]

theorem getVal_updateVal_other (r : Row) {c c' : String} (v : Value) (h : c' ≠ c) :
    getVal (updateVal r c v) c' = getVal r c' := by
  have hcc : ¬ c = c' := fun hh => h hh.symm
  induction r with
  | nil => simp [updateVal, getVal, hcc]
  | cons p r ih =>
    obtain ⟨c0, v0⟩ := p
    by_cases hc : c0 = c
    · subst hc
      simp [updateVal, getVal, hcc]
    · simp [updateVal, hc, getVal, ih]

theorem mapE_ok_mem {α β : Type} {f : α → Except String β} :
    ∀ {l : List α} {ys : List β}, mapE f l = Except.ok ys →
      ∀ y ∈ ys, ∃ x ∈ l, f x = Except.ok y := by
  intro l
  induction l with
  | nil =>
    intro ys h y hy
    simp [mapE] at h
    subst h
    simp at hy
  | cons a l ih =>
    intro ys h y hy
    simp only [mapE] at h
    cases hfa : f a with
    | error e => rw [hfa] at h; exact absurd h (by simp)
    | ok b =>
      rw [hfa] at h
      cases hml : mapE f l with
      | error e => rw [hml] at h; exact absurd h (by simp)
      | ok bs =>
        rw [hml] at h
        dsimp only at h
        cases h
        rcases List.mem_cons.mp hy with hyb | hyl
        · exact ⟨a, List.mem_cons_self a l, hyb ▸ hfa⟩
        · obtain ⟨x, hx, hfx⟩ := ih hml y hyl
          exact ⟨x, List.mem_cons_of_mem a hx, hfx⟩

theorem mem_firstOccAux {α : Type} [DecidableEq α] {a : α} :
    ∀ {seen l : List α}, a ∈ firstOccAux seen l ↔ a ∈ l ∧ a ∉ seen := by
  intro seen l
  induction l generalizing seen with
  | nil => simp [firstOccAux]
  | cons b l ih =>
    by_cases hb : b ∈ seen
    · rw [firstOccAux, if_pos hb, ih]
      constructor
      · rintro ⟨h1, h2⟩
        exact ⟨List.mem_cons_of_mem b h1, h2⟩
      · rintro ⟨h1, h2⟩
        rcases List.mem_cons.mp h1 with rfl | h1
        · exact absurd hb h2
        · exact ⟨h1, h2⟩
    · rw [firstOccAux, if_neg hb]
      constructor
      · intro hmem
        rcases List.mem_cons.mp hmem with rfl | hmem
        · exact ⟨List.mem_cons_self a l, hb⟩
        · obtain ⟨h1, h2⟩ := ih.mp hmem
          exact ⟨List.mem_cons_of_mem b h1, fun hs => h2 (List.mem_cons_of_mem b hs)⟩
      · rintro ⟨h1, h2⟩
        rcases List.mem_cons.mp h1 with rfl | h1
        · exact List.mem_cons_self a _
        · by_cases hab : a = b
          · subst hab
            exact List.mem_cons_self a _
          · refine List.mem_cons_of_mem b (ih.mpr ⟨h1, fun hs => ?_⟩)
            rcases List.mem_cons.mp hs with h | h
            · exact hab h
            · exact h2 h

theorem mem_firstOcc {α : Type} [DecidableEq α] {a : α} {l : List α} :
    a ∈ firstOcc l ↔ a ∈ l := by
  simp [firstOcc, mem_firstOccAux]

theorem nodup_firstOccAux {α : Type} [DecidableEq α] :
    ∀ {seen l : List α}, (firstOccAux seen l).Nodup := by
  intro seen l
  induction l generalizing seen with
  | nil => simp [firstOccAux]
  | cons b l ih =>
    by_cases hb : b ∈ seen
    · rw [firstOccAux, if_pos hb]
      exact ih
    · rw [firstOccAux, if_neg hb]
      refine List.nodup_cons.mpr ⟨fun hmem => ?_, ih⟩
      exact (mem_firstOccAux.mp hmem).2 (List.mem_cons_self b seen)

theorem nodup_firstOcc {α : Type} [DecidableEq α] (l : List α) : (firstOcc l).Nodup :=
  nodup_firstOccAux

theorem firstOccAux_eq_self {α : Type} [DecidableEq α] :
    ∀ {seen l : List α}, l.Nodup → (∀ x ∈ l, x ∉ seen) → firstOccAux seen l = l := by
  intro seen l
  induction l generalizing seen with
  | nil => intro _ _; simp [firstOccAux]
  | cons b l ih =>
    intro hnd hout
    have hb : b ∉ seen := hout b (List.mem_cons_self b l)
    rw [firstOccAux, if_neg hb]
    congr 1
    refine ih (List.nodup_cons.mp hnd).2 ?_
    intro x hx hmem
    rcases List.mem_cons.mp hmem with rfl | hs
    · exact (List.nodup_cons.mp hnd).1 hx
    · exact hout x (List.mem_cons_of_mem b hx) hs

theorem firstOcc_eq_self {α : Type} [DecidableEq α] {l : List α} (h : l.Nodup) :
    firstOcc l = l :=
  firstOccAux_eq_self h (by simp)

theorem firstOccAux_sublist {α : Type} [DecidableEq α] :
    ∀ {seen l : List α}, List.Sublist (firstOccAux seen l) l := by
  intro seen l
  induction l generalizing seen with
  | nil => simp [firstOccAux]
  | cons b l ih =>
    by_cases hb : b ∈ seen
    · rw [firstOccAux, if_pos hb]
      exact List.Sublist.cons b ih
    · rw [firstOccAux, if_neg hb]
      exact List.Sublist.cons₂ b ih

theorem firstOcc_sublist {α : Type} [DecidableEq α] (l : List α) :
    List.Sublist (firstOcc l) l :=
  firstOccAux_sublist

theorem findMissing_none_iff {cs cols : List String} :
    findMissing cs cols = none ↔ ∀ c ∈ cs, c ∈ cols := by
  simp only [findMissing, List.find?_eq_none, Bool.not_eq_true']
  constructor
  · intro h c hc
    have := h c hc
    simpa [List.contains_iff_exists_mem_beq] using this
  · intro h c hc
    simpa [List.contains_iff_exists_mem_beq] using h c hc

theorem firstNonNull_single (v : Value) : firstNonNull [v] = v := by
  by_cases h : v = Value.vNull
  · simp [firstNonNull, h]
  · simp [firstNonNull, h]

theorem firstNonNull_ne_null {l : List Value} {v : Value}
    (hv : v ∈ l) (hne : v ≠ Value.vNull) : firstNonNull l ≠ Value.vNull := by
  unfold firstNonNull
  cases hfil : l.filter (fun w => decide (w ≠ Value.vNull)) with
  | nil =>
    have hmem : v ∈ l.filter (fun w => decide (w ≠ Value.vNull)) :=
      List.mem_filter.mpr ⟨hv, by simpa using hne⟩
    rw [hfil] at hmem
    simp at hmem
  | cons w ws =>
    have hw : w ∈ l.filter (fun x => decide (x ≠ Value.vNull)) := by
      rw [hfil]
      exact List.mem_cons_self w ws
    have hwne : w ≠ Value.vNull := by simpa using (List.mem_filter.mp hw).2
    exact hwne

theorem filter_eq_singleton_of_nodup_map {α β : Type} [DecidableEq β] {f : α → β} :
    ∀ {l : List α} {a : α}, (l.map f).Nodup → a ∈ l →
      l.filter (fun b => decide (f b = f a)) = [a] := by
  intro l
  induction l with
  | nil => intro a _ ha; simp at ha
  | cons x l ih =>
    intro a hnd ha
    have hnd2 : (l.map f).Nodup := (List.nodup_cons.mp (by simpa using hnd)).2
    have hx : f x ∉ l.map f := (List.nodup_cons.mp (by simpa using hnd)).1
    rcases List.mem_cons.mp ha with rfl | hal
    · rw [List.filter_cons, if_pos (by simp)]
      have hnil : List.filter (fun b => decide (f b = f a)) l = [] := by
        refine List.filter_eq_nil_iff.mpr ?_
        intro b hb
        simp only [decide_eq_true_eq]
        intro heq
        exact hx (heq ▸ List.mem_map_of_mem f hb)
      rw [hnil]
    · have hne : ¬ f x = f a := fun heq => hx (heq ▸ List.mem_map_of_mem f hal)
      rw [List.filter_cons, if_neg (by simpa using hne)]
      exact ih hnd2 hal

/-! ### Soundness of the fusion matcher: captured tokens never carry a
transcript-accession prefix -/

theorem isPrefixOf_of_append {p g s : List Char} (hp : p.isPrefixOf g = true)
    (hgs : ∃ t, g ++ t = s) : p.isPrefixOf s = true := by
  obtain ⟨t, rfl⟩ := hgs
  have h1 : p <+: g := List.isPrefixOf_iff_prefix.mp hp
  exact List.isPrefixOf_iff_prefix.mpr (h1.trans (List.prefix_append g t))

theorem accessionAt_false_mono {g s : List Char} (hgs : ∃ t, g ++ t = s)
    (hs : accessionAt s = false) : accessionAt g = false := by
  unfold accessionAt at hs ⊢
  have hmono : ∀ p : List Char, p.isPrefixOf s = false → p.isPrefixOf g = false := by
    intro p hp
    cases hpg : p.isPrefixOf g with
    | false => rfl
    | true => rw [isPrefixOf_of_append hpg hgs] at hp; exact hp
  simp only [Bool.or_eq_false_iff] at hs ⊢
  exact ⟨⟨hmono _ hs.1.1, hmono _ hs.1.2⟩, hmono _ hs.2⟩

theorem reverse_dropWhile_append (p : Char → Bool) (l : List Char) :
    (l.reverse.dropWhile p).reverse ++ (l.reverse.takeWhile p).reverse = l := by
  rw [← List.reverse_append, List.takeWhile_append_dropWhile, List.reverse_reverse]

theorem matchG2_spec {s g2 : List Char} (h : matchG2 s = some g2) :
    accessionAt g2 = false := by
  unfold matchG2 at h
  split at h
  · exact absurd h (by simp)
  · rename_i hacc
    have haccf : accessionAt s = false := by simpa using hacc
    split at h
    · rename_i c1 c2 rest heq
      split at h
      · have hg2 := Option.some.inj h
        have hpre1 : ∃ t, g2 ++ t = c1 :: c2 :: rest :=
          ⟨((c1 :: c2 :: rest).reverse.takeWhile (fun c => c = '-')).reverse,
            by rw [← hg2]; exact reverse_dropWhile_append _ _⟩
        have hpre2 : ∃ t, (c1 :: c2 :: rest) ++ t = s :=
          ⟨s.dropWhile isTokenChar, by rw [← heq]; exact List.takeWhile_append_dropWhile _ _⟩
        obtain ⟨t1, ht1⟩ := hpre1
        obtain ⟨t2, ht2⟩ := hpre2
        exact accessionAt_false_mono ⟨t1 ++ t2, by rw [← List.append_assoc, ht1, ht2]⟩ haccf
      · exact absurd h (by simp)
    · exact absurd h (by simp)

theorem trySep_spec {sep t g2 : List Char} {k : Nat}
    (h : trySep sep t = some (g2, k)) : accessionAt g2 = false := by
  simp only [trySep] at h
  split at h
  · split at h
    · rename_i g2' hm
      have h' := Option.some.inj h
      have hg : g2' = g2 := congrArg Prod.fst h'
      exact hg ▸ matchG2_spec hm
    · exact absurd h (by simp)
  · exact absurd h (by simp)

theorem matchSepG2_spec {s1 g2 : List Char} {k : Nat}
    (h : matchSepG2 s1 = some (g2, k)) : accessionAt g2 = false := by
  simp only [matchSepG2] at h
  split at h
  · rename_i g2' k' hm
    have h' := Option.some.inj h
    have hg : g2' = g2 := congrArg Prod.fst h'
    exact hg ▸ trySep_spec hm
  · split at h
    · rename_i g2' k' hm
      have h' := Option.some.inj h
      have hg : g2' = g2 := congrArg Prod.fst h'
      exact hg ▸ trySep_spec hm
    · split at h
      · rename_i g2' k' hm
        have h' := Option.some.inj h
        have hg : g2' = g2 := congrArg Prod.fst h'
        exact hg ▸ trySep_spec hm
      · exact absurd h (by simp)

theorem tryG1From_spec {s g1 g2 : List Char} {k : Nat} :
    ∀ {n : Nat}, tryG1From s n = some (g1, g2, k) → accessionAt s = false →
      accessionAt g1 = false ∧ accessionAt g2 = false := by
  intro n
  induction n with
  | zero => intro h _; simp [tryG1From] at h
  | succ m ih =>
    intro h hs
    cases m with
    | zero => simp [tryG1From] at h
    | succ l =>
      rw [tryG1From] at h
      split at h
      · rename_i g2' k' hm
        have h' := Option.some.inj h
        have hg1 : s.take (l + 2) = g1 := congrArg Prod.fst h'
        have hg2 : g2' = g2 := congrArg (fun p => p.2.1) h'
        constructor
        · refine hg1 ▸ accessionAt_false_mono ⟨s.drop (l + 2), ?_⟩ hs
          exact List.take_append_drop (l + 2) s
        · exact hg2 ▸ matchSepG2_spec hm
      · exact ih h hs

theorem attemptAt_spec {s g1 g2 : List Char} {k : Nat}
    (h : attemptAt s = some (g1, g2, k)) :
    accessionAt g1 = false ∧ accessionAt g2 = false := by
  unfold attemptAt at h
  split at h
  · exact absurd h (by simp)
  · rename_i hacc
    have haccf : accessionAt s = false := by simpa using hacc
    split at h
    · split at h
      · exact tryG1From_spec h haccf
      · exact absurd h (by simp)
    · exact absurd h (by simp)

theorem scanAux_spec :
    ∀ (fuel : Nat) (prev : Option Char) (s : List Char) (g1 g2 : List Char),
      (g1, g2) ∈ scanAux fuel prev s →
      accessionAt g1 = false ∧ accessionAt g2 = false := by
  intro fuel
  induction fuel with
  | zero => intro prev s g1 g2 h; simp [scanAux] at h
  | succ f ih =>
    intro prev s g1 g2 h
    cases s with
    | nil => simp [scanAux] at h
    | cons c rest =>
      simp only [scanAux] at h
      split at h
      · split at h
        · rename_i g1' g2' k' hm
          rcases List.mem_cons.mp h with hhead | htail
          · have hg1 : g1' = g1 := (congrArg Prod.fst hhead).symm
            have hg2 : g2' = g2 := (congrArg Prod.snd hhead).symm
            exact hg1 ▸ hg2 ▸ attemptAt_spec hm
          · exact ih _ _ _ _ htail
        · exact ih _ _ _ _ h
      · exact ih _ _ _ _ h

/-! ### Transport lemmas for the merge-and-fill steps -/

theorem mergeLeft_unmatched {df right m : DataFrame} {key : String}
    (hm : mergeLeft df right key = Except.ok m) {r : Row} (hr : r ∈ df.rows)
    (hnm : ∀ rr ∈ right.rows,
      ¬(getValD r key ≠ Value.vNull ∧ getValD rr key = getValD r key)) :
    r ++ (right.cols.filter (fun c => decide (c ≠ key))).map (fun c => (c, Value.vNull))
        ∈ m.rows
      ∧ m.cols = df.cols ++ right.cols.filter (fun c => decide (c ≠ key)) := by
  unfold mergeLeft at hm
  split at hm
  · split at hm
    · have hout := Except.ok.inj hm
      subst hout
      refine ⟨?_, rfl⟩
      have hms : right.rows.filter (fun rr =>
          decide (getValD r key ≠ Value.vNull)
            && decide (getValD rr key = getValD r key)) = [] := by
        refine List.filter_eq_nil_iff.mpr ?_
        intro rr hrr
        have := hnm rr hrr
        by_cases h1 : getValD r key = Value.vNull
        · simp [h1]
        · have h2 : getValD rr key ≠ getValD r key := fun he => this ⟨h1, he⟩
          simp [h1, h2]
      refine List.mem_flatMap.mpr ⟨r, hr, ?_⟩
      dsimp only
      rw [hms]
      simp
    · exact absurd hm (by simp)
  · exact absurd hm (by simp)

theorem fillnaColE_mem {m out : DataFrame} {c : String} {d : Value}
    (h : fillnaColE m c d = Except.ok out) {r1 : Row} (hr : r1 ∈ m.rows)
    (hc : getValD r1 c = Value.vNull) : updateVal r1 c d ∈ out.rows := by
  unfold fillnaColE at h
  split at h
  · have hout := Except.ok.inj h
    subst hout
    have : updateVal r1 c d
        = updateVal r1 c (if getValD r1 c = Value.vNull then d else getValD r1 c) := by
      rw [if_pos hc]
    rw [this]
    exact List.mem_map_of_mem _ hr
  · exact absurd h (by simp)

theorem astypeIntColE_mem {m out : DataFrame} {c : String}
    (h : astypeIntColE m c = Except.ok out) {r1 : Row} (hr : r1 ∈ m.rows) {n : Int}
    (hc : getValD r1 c = Value.vInt n) : updateVal r1 c (Value.vInt n) ∈ out.rows := by
  unfold astypeIntColE at h
  split at h
  · have hout := Except.ok.inj h
    subst hout
    refine List.mem_map.mpr ⟨r1, hr, ?_⟩
    rw [hc]
  · exact absurd h (by simp)

theorem getVal_append_pad {r : Row} {c : String} {pad : Row}
    (hpad : ∀ p ∈ pad, p.1 ≠ c) : getVal (r ++ pad) c = getVal r c := by
  cases hv : getVal r c with
  | some v => exact getVal_append_left pad hv
  | none =>
    rw [getVal_append_right pad hv]
    induction pad with
    | nil => simp [getVal]
    | cons p ps ih =>
      obtain ⟨c0, v0⟩ := p
      have hc0 : c0 ≠ c := hpad (c0, v0) (List.mem_cons_self _ _)
      rw [getVal, if_neg hc0]
      exact ih (fun q hq => hpad q (List.mem_cons_of_mem _ hq))

theorem getVal_renameRow {rr : Row} {old new : String} (hnew : getVal rr new = none) :
    getVal (rr.map (fun p => if p.1 = old then (new, p.2) else p)) new = getVal rr old := by
  induction rr with
  | nil => simp [getVal]
  | cons p rest ih =>
    obtain ⟨c0, v0⟩ := p
    have hsplit : ¬ c0 = new ∧ getVal rest new = none := by
      rw [getVal] at hnew
      by_cases hc : c0 = new
      · rw [if_pos hc] at hnew; exact absurd hnew (by simp)
      · rw [if_neg hc] at hnew; exact ⟨hc, hnew⟩
    by_cases hco : c0 = old
    · subst hco
      have hmap : (((c0, v0) :: rest).map (fun p => if p.1 = c0 then (new, p.2) else p))
          = (new, v0) :: rest.map (fun p => if p.1 = c0 then (new, p.2) else p) := by
        simp
      rw [hmap, getVal, if_pos rfl, getVal, if_pos rfl]
    · have hmap : (((c0, v0) :: rest).map (fun p => if p.1 = old then (new, p.2) else p))
          = (c0, v0) :: rest.map (fun p => if p.1 = old then (new, p.2) else p) := by
        simp [hco]
      rw [hmap, getVal, if_neg hsplit.1, getVal, if_neg hco]
      exact ih hsplit.2

/-! ### Order facts for the embedded sorts -/

instance : IsTotal String (fun a b => strKey a ≤ strKey b) :=
  ⟨fun _a _b => le_total _ _⟩

instance : IsTrans String (fun a b => strKey a ≤ strKey b) :=
  ⟨fun _ _ _ => le_trans⟩

instance (naFirst : Bool) (cols : List String) : IsTotal Row (rowLe naFirst cols) :=
  ⟨fun _a _b => le_total _ _⟩

instance (naFirst : Bool) (cols : List String) : IsTrans Row (rowLe naFirst cols) :=
  ⟨fun _ _ _ => le_trans⟩

theorem sortStrings_pairwise (l : List String) :
    (sortStrings l).Pairwise (fun a b => strKey a ≤ strKey b) :=
  List.sorted_insertionSort _ l

theorem sortStrings_perm (l : List String) : (sortStrings l).Perm l :=
  List.perm_insertionSort _ l

/-! ### Inversion lemmas for the table operations -/

theorem sortValuesE_ok {df out : DataFrame} {cols : List String} {naF : Bool}
    (h : sortValuesE df cols naF = Except.ok out) :
    out.cols = df.cols ∧ out.rows = df.rows.insertionSort (rowLe naF cols)
      ∧ ∀ c ∈ cols, c ∈ df.cols := by
  unfold sortValuesE at h
  cases hmiss : findMissing cols df.cols with
  | some c => rw [hmiss] at h; exact absurd h (by simp)
  | none =>
    rw [hmiss] at h
    have hout := Except.ok.inj h
    subst hout
    exact ⟨rfl, rfl, findMissing_none_iff.mp hmiss⟩

theorem groupbyFirstE_ok {keys vals : List String} {df out : DataFrame}
    (h : groupbyFirstE keys vals df = Except.ok out) :
    out.cols = keys ++ vals
      ∧ out.rows = (firstOcc (df.rows.map (keyOf keys))).map (buildRow keys vals df.rows)
      ∧ (∀ c ∈ keys, c ∈ df.cols) ∧ ∀ c ∈ vals, c ∈ df.cols := by
  unfold groupbyFirstE at h
  cases hk : findMissing keys df.cols with
  | some c => rw [hk] at h; exact absurd h (by simp)
  | none =>
    rw [hk] at h
    cases hv : findMissing vals df.cols with
    | some c => rw [hv] at h; exact absurd h (by simp)
    | none =>
      rw [hv] at h
      have hout := Except.ok.inj h
      subst hout
      exact ⟨rfl, rfl, findMissing_none_iff.mp hk, findMissing_none_iff.mp hv⟩

theorem applyColE_ok {df out : DataFrame} {src dst : String}
    {f : Value → Except String Value} (h : applyColE df src dst f = Except.ok out) :
    (∀ r' ∈ out.rows, ∃ r0 ∈ df.rows, ∃ v,
        f (getValD r0 src) = Except.ok v ∧ r' = updateVal r0 dst v)
      ∧ out.cols = (if dst ∈ df.cols then df.cols else df.cols ++ [dst]) := by
  unfold applyColE at h
  split at h
  · revert h
    cases hrows : mapE (fun r =>
        match f (getValD r src) with
        | Except.error e => Except.error e
        | Except.ok v => Except.ok (updateVal r dst v)) df.rows with
    | error e => intro h; exact absurd h (by simp)
    | ok rows =>
      intro h
      have hout := Except.ok.inj h
      subst hout
      refine ⟨?_, rfl⟩
      intro r' hr'
      obtain ⟨r0, hr0, hfr0⟩ := mapE_ok_mem hrows r' hr'
      revert hfr0
      cases hf : f (getValD r0 src) with
      | error e => intro hfr0; exact absurd hfr0 (by simp)
      | ok v =>
        intro hfr0
        exact ⟨r0, hr0, v, hf, (Except.ok.inj hfr0).symm⟩
  · exact absurd h (by simp)

/-! ### Rebuilding facts for grouped rows -/

theorem getVal_zip_not_mem {keys : List String} {k : List Value} {c : String}
    (hc : c ∉ keys) : getVal (keys.zip k) c = none := by
  induction keys generalizing k with
  | nil => simp [getVal]
  | cons c0 keys ih =>
    cases k with
    | nil => simp [getVal]
    | cons v k =>
      have hc0 : ¬ c0 = c := fun hh => hc (hh ▸ List.mem_cons_self c0 keys)
      rw [List.zip_cons_cons, getVal, if_neg hc0]
      exact ih (fun hh => hc (List.mem_cons_of_mem c0 hh))

theorem getVal_mapPairs {vals : List String} {g : String → Value} {c : String}
    (hc : c ∈ vals) : getVal (vals.map (fun c2 => (c2, g c2))) c = some (g c) := by
  induction vals with
  | nil => simp at hc
  | cons c0 vals ih =>
    by_cases h0 : c0 = c
    · subst h0
      simp [getVal]
    · rcases List.mem_cons.mp hc with rfl | hmem
      · exact absurd rfl h0
      · rw [List.map_cons, getVal, if_neg h0]
        exact ih hmem

theorem keyOf_zip_append {keys : List String} {k : List Value} (hnd : keys.Nodup)
    (hlen : k.length = keys.length) (tail : Row) :
    keyOf keys (keys.zip k ++ tail) = k := by
  induction keys generalizing k with
  | nil =>
    cases k with
    | nil => rfl
    | cons v k => simp at hlen
  | cons c keys ih =>
    cases k with
    | nil => simp at hlen
    | cons v k =>
      have hhd : c ∉ keys := (List.nodup_cons.mp hnd).1
      have hnd2 : keys.Nodup := (List.nodup_cons.mp hnd).2
      have hlen2 : k.length = keys.length := by simpa using hlen
      unfold keyOf
      rw [List.zip_cons_cons, List.map_cons]
      congr 1
      · unfold getValD
        rw [List.cons_append, getVal, if_pos rfl]
        rfl
      · have hstep : ∀ c' ∈ keys,
            getValD (((c, v) :: keys.zip k) ++ tail) c'
              = getValD (keys.zip k ++ tail) c' := by
          intro c' hc'
          have hne : ¬ c = c' := fun hh => hhd (hh ▸ hc')
          unfold getValD
          rw [List.cons_append, getVal, if_neg hne]
        calc keys.map (fun c' => getValD (((c, v) :: keys.zip k) ++ tail) c')
            = keys.map (fun c' => getValD (keys.zip k ++ tail) c') :=
              List.map_congr_left hstep
          _ = k := ih hnd2 hlen2

theorem keyOf_buildRow {keys vals : List String} {rows : List Row} {k : List Value}
    (hnd : keys.Nodup) (hlen : k.length = keys.length) :
    keyOf keys (buildRow keys vals rows k) = k :=
  keyOf_zip_append hnd hlen _

theorem getValD_buildRow_val {keys vals : List String} {rows : List Row} {k : List Value}
    {c : String} (hcv : c ∈ vals) (hck : c ∉ keys) :
    getValD (buildRow keys vals rows k) c
      = firstNonNull ((rows.filter (fun r => decide (keyOf keys r = k))).map
          (fun r => getValD r c)) := by
  unfold buildRow getValD
  rw [getVal_append_right _ (getVal_zip_not_mem hck)]
  rw [getVal_mapPairs hcv]
  rfl

theorem filter_singleton_self {l : List Row} {keys : List String} {r : Row}
    (hnd : (l.map (keyOf keys)).Nodup) (hr : r ∈ l) :
    l.filter (fun b => decide (keyOf keys b = keyOf keys r)) = [r] :=
  filter_eq_singleton_of_nodup_map hnd hr

theorem concatColsE_ok_cols {df out : DataFrame} {c1 c2 dst sep : String}
    (h : concatColsE df c1 c2 dst sep = Except.ok out) :
    out.cols = (if dst ∈ df.cols then df.cols else df.cols ++ [dst]) := by
  unfold concatColsE at h
  split at h
  · split at h
    · revert h
      cases hrows : mapE (fun r =>
          match concatStrVals sep (getValD r c1) (getValD r c2) with
          | Except.error e => Except.error e
          | Except.ok v => Except.ok (updateVal r dst v)) df.rows with
      | error e => intro h; exact absurd h (by simp)
      | ok rows =>
        intro h
        have hout := Except.ok.inj h
        subst hout
        rfl
    · exact absurd h (by simp)
  · exact absurd h (by simp)

/-- Inversion of `make_sf_pivot` down to the Fusion Inspector step: the
second component of the returned pair always comes from `mergeFI`. -/
theorem make_sf_pivot_snd {sf runs fqc fi pp refs : DataFrame} {cfg : PivotConfig}
    {P fi2 : DataFrame}
    (h : make_sf_pivot sf runs fqc fi pp refs cfg = Except.ok (P, fi2)) :
    ∃ d5 fiRes, mergeFI d5 fi = Except.ok fiRes ∧ fi2 = fiRes.2 := by
  unfold make_sf_pivot at h
  revert h
  cases h1 : deriveNames sf with
  | error e => intro h; dsimp only at h; exact absurd h (by simp)
  | ok d1 =>
    intro h
    dsimp only at h
    revert h
    cases h2 : concatColsE d1 "SPECIMEN" "#FusionName" "ID" "_" with
    | error e => intro h; dsimp only at h; exact absurd h (by simp)
    | ok d2 =>
      intro h
      dsimp only at h
      revert h
      cases h3 : concatColsE d2 "LeftBreakpoint" "RightBreakpoint" "LEFTRIGHT" "_" with
      | error e => intro h; dsimp only at h; exact absurd h (by simp)
      | ok d3 =>
        intro h
        dsimp only at h
        revert h
        cases h4 : (if runs.isEmpty then Except.ok d3 else mergeHistorical d3 runs) with
        | error e => intro h; dsimp only at h; exact absurd h (by simp)
        | ok d4 =>
          intro h
          dsimp only at h
          revert h
          cases h5 : (if fqc.isEmpty then Except.ok d4
              else mergeLeft d4 fqc "SPECIMEN") with
          | error e => intro h; dsimp only at h; exact absurd h (by simp)
          | ok d5 =>
            intro h
            dsimp only at h
            revert h
            cases h6 : mergeFI d5 fi with
            | error e => intro h; dsimp only at h; exact absurd h (by simp)
            | ok fiRes =>
              intro h
              dsimp only at h
              revert h
              cases h7 : mergePrevPos fiRes.1 pp with
              | error e => intro h; dsimp only at h; exact absurd h (by simp)
              | ok d6 =>
                intro h
                dsimp only at h
                revert h
                cases h8 : mergeRefSources d6 refs with
                | error e => intro h; dsimp only at h; exact absurd h (by simp)
                | ok d7 =>
                  intro h
                  dsimp only at h
                  revert h
                  cases h9 : sortGroupFirst cfg d7 with
                  | error e => intro h; dsimp only at h; exact absurd h (by simp)
                  | ok p =>
                    intro h
                    dsimp only at h
                    revert h
                    cases h10 : selectColsE p (cfg.index ++ finalCols) with
                    | error e => intro h; dsimp only at h; exact absurd h (by simp)
                    | ok p2 =>
                      intro h
                      dsimp only at h
                      have hpair := Except.ok.inj h
                      exact ⟨d5, fiRes, h6, (congrArg Prod.snd hpair).symm⟩

/-! ### Claim theorems (evaluation-style) -/

instance {ε α : Type} [DecidableEq ε] [DecidableEq α] : DecidableEq (Except ε α) :=
  fun a b =>
    match a, b with
    | Except.ok x, Except.ok y =>
      if h : x = y then isTrue (by rw [h]) else isFalse (by simp [h])
    | Except.error x, Except.error y =>
      if h : x = y then isTrue (by rw [h]) else isFalse (by simp [h])
    | Except.ok _, Except.error _ => isFalse (by simp)
    | Except.error _, Except.ok _ => isFalse (by simp)

/-- C1: the end-to-end scenario of the specification fails on the code.
With the historical, annotation and prior-positive tables empty, the
guarded merges are skipped, so the `Count_predicted` and `FRAME` columns
are never created; the pivot step then requests them and raises (the
first missing configured value column is FRAME).  No summary row with
`Count_predicted = 0` is produced. -/
theorem C1_scenario_key_error :
    make_sf_pivot sfScenario runsEmpty fqcOne fiEmpty ppEmpty refsOne SF_PIVOT_CONFIG
      = Except.error "KeyError: FRAME" := by
  decide

/-- C2 counterexample: the three separator spellings do not normalize
identically; on the input `EML4--ALK` the greedy first-gene token of the
pattern absorbs one dash, so the rewrite yields `EML4---ALK`, not
`EML4--ALK`. -/
theorem C2_counterexample :
    extract_fusions (some "EML4--ALK") = ["EML4---ALK"]
      ∧ ("EML4---ALK" : String) ≠ "EML4--ALK" := by
  exact ⟨by decide, by decide⟩

/-- C2 amended: the `::` and single-dash spellings normalize to
`EML4--ALK`, while the already-canonical `EML4--ALK` spelling is
rewritten to `EML4---ALK` (the first captured token keeps one dash). -/
theorem C2_amended :
    extract_fusions (some "EML4::ALK") = ["EML4--ALK"]
      ∧ extract_fusions (some "EML4-ALK") = ["EML4--ALK"]
      ∧ extract_fusions (some "EML4--ALK") = ["EML4---ALK"] := by
  exact ⟨by decide, by decide, by decide⟩

/-- C3: for every input text, `extract_fusions` returns a duplicate-free
collection of matches rewritten as GENE_A--GENE_B whose gene tokens
never carry a transcript-accession prefix (NM_, NR_ or ENST); null and
empty input give an empty result; on `EML4::ALK, TPM3 - ROS1` the result
contains `EML4--ALK` and `TPM3--ROS1`, and on `ALK--NM_123456` it is
empty. -/
theorem C3_extract_fusions_spec :
    (∀ t, (extract_fusions t).Nodup)
      ∧ (∀ t f, f ∈ extract_fusions t →
          ∃ g1 g2, f = fusionString g1 g2
            ∧ accessionAt g1 = false ∧ accessionAt g2 = false)
      ∧ extract_fusions none = []
      ∧ extract_fusions (some "") = []
      ∧ "EML4--ALK" ∈ extract_fusions (some "EML4::ALK, TPM3 - ROS1")
      ∧ "TPM3--ROS1" ∈ extract_fusions (some "EML4::ALK, TPM3 - ROS1")
      ∧ extract_fusions (some "ALK--NM_123456") = [] := by
  refine ⟨?_, ?_, rfl, by decide, by decide, by decide, by decide⟩
  · intro t
    match t with
    | none => simp [extract_fusions]
    | some s =>
      by_cases h : s = ""
      · simp [extract_fusions, h]
      · simp [extract_fusions, h, List.nodup_dedup]
  · intro t f hf
    match t with
    | none => simp [extract_fusions] at hf
    | some s =>
      by_cases h : s = ""
      · simp [extract_fusions, h] at hf
      · simp only [extract_fusions, if_neg h] at hf
        have hf2 := List.mem_dedup.mp hf
        obtain ⟨p, hp, rfl⟩ := List.mem_map.mp hf2
        obtain ⟨g1, g2⟩ := p
        have hspec := scanAux_spec _ _ _ g1 g2 hp
        exact ⟨g1, g2, rfl, hspec.1, hspec.2⟩

/-- C3 witness: the soundness statement applied at concrete inputs. -/
theorem C3_witness :
    (extract_fusions (some "EML4::ALK, TPM3 - ROS1")).Nodup
      ∧ ∃ g1 g2, "EML4--ALK" = fusionString g1 g2
          ∧ accessionAt g1 = false ∧ accessionAt g2 = false :=
  ⟨C3_extract_fusions_spec.1 (some "EML4::ALK, TPM3 - ROS1"),
   C3_extract_fusions_spec.2.1 (some "EML4::ALK") "EML4--ALK" (by decide)⟩

/-- C4 counterexample: `parse_fusion_inspector` on zero files does not
return an empty table; the unconditional filename rewrite hits the
column-free empty frame and raises the KeyError of `df["file_name"]`. -/
theorem C4_counterexample :
    parse_fusion_inspector [] = Except.error "KeyError: file_name" := by
  decide

/-- C4 amended: the shared batch helper and `parse_star_fusion` return an
empty table (not an error) on zero files, while `parse_fusion_inspector`
raises a missing-column error on zero files. -/
theorem C4_amended :
    _parse_fusion_files [] = DataFrame.empty
      ∧ parse_star_fusion [] = DataFrame.empty
      ∧ parse_fusion_inspector [] = Except.error "KeyError: file_name" := by
  exact ⟨by decide, by decide, by decide⟩

/-- C5: in the merge steps of `make_sf_pivot` against non-empty
registries, a primary row whose fusion key matches nothing receives the
documented neutral default and never a null and never an error: integer
zero for the historical count, the empty string for the prior-positive
and reference-source columns; all other cells of the row are unchanged. -/
theorem C5_unmatched_neutral_defaults :
    (∀ (df runs out : DataFrame) (r : Row),
        runs.isEmpty = false →
        mergeHistorical df runs = Except.ok out →
        r ∈ df.rows →
        getVal r "Count_predicted" = none →
        (∀ rr ∈ runs.rows, getValD rr "#FusionName" ≠ getValD r "#FusionName") →
        ∃ r' ∈ out.rows, getVal r' "Count_predicted" = some (Value.vInt 0)
          ∧ ∀ c, c ≠ "Count_predicted" → getVal r' c = getVal r c)
      ∧ (∀ (df pp out : DataFrame) (r : Row),
        pp.isEmpty = false →
        mergePrevPos df pp = Except.ok out →
        r ∈ df.rows →
        getVal r "PreviousPositives" = none →
        (∀ q ∈ prevPosPairs pp, q.1 ≠ getValD r "#FusionName") →
        ∃ r' ∈ out.rows, getVal r' "PreviousPositives" = some (Value.vStr "")
          ∧ ∀ c, c ≠ "PreviousPositives" → getVal r' c = getVal r c)
      ∧ (∀ (df refs out : DataFrame) (r : Row),
        refs.isEmpty = false →
        refs.cols = ["Fusion", "ReferenceSources"] →
        mergeRefSources df refs = Except.ok out →
        r ∈ df.rows →
        getVal r "ReferenceSources" = none →
        (∀ rr ∈ refs.rows, getVal rr "#FusionName" = none) →
        (∀ rr ∈ refs.rows, getValD rr "Fusion" ≠ getValD r "#FusionName") →
        ∃ r' ∈ out.rows, getVal r' "ReferenceSources" = some (Value.vStr "")
          ∧ ∀ c, c ≠ "ReferenceSources" → getVal r' c = getVal r c) := by
  refine ⟨?_, ?_, ?_⟩
  · -- historical counts
    intro df runs out r _hne h hr hcp hnm
    unfold mergeHistorical at h
    cases hsel : selectColsE runs ["#FusionName", "Count_predicted"] with
    | error e => rw [hsel] at h; exact absurd h (by simp)
    | ok runsSel =>
      rw [hsel] at h
      dsimp only at h
      cases hml : mergeLeft df runsSel "#FusionName" with
      | error e => rw [hml] at h; exact absurd h (by simp)
      | ok m =>
        rw [hml] at h
        dsimp only at h
        cases hfn : fillnaColE m "Count_predicted" (Value.vInt 0) with
        | error e => rw [hfn] at h; exact absurd h (by simp)
        | ok m2 =>
          rw [hfn] at h
          dsimp only at h
          have hselStruct : runsSel
              = ⟨["#FusionName", "Count_predicted"],
                 runs.rows.map (fun rr =>
                   ["#FusionName", "Count_predicted"].map (fun c => (c, getValD rr c)))⟩ := by
            unfold selectColsE at hsel
            split at hsel
            · exact absurd hsel (by simp)
            · exact (Except.ok.inj hsel).symm
          have hnm2 : ∀ rr2 ∈ runsSel.rows,
              ¬(getValD r "#FusionName" ≠ Value.vNull
                ∧ getValD rr2 "#FusionName" = getValD r "#FusionName") := by
            intro rr2 hrr2
            rw [hselStruct] at hrr2
            obtain ⟨rr, hrr, rfl⟩ := List.mem_map.mp hrr2
            rintro ⟨_hv, heq⟩
            have hsame : getValD (["#FusionName", "Count_predicted"].map
                (fun c => (c, getValD rr c))) "#FusionName" = getValD rr "#FusionName" := by
              simp [getValD, getVal]
            exact hnm rr hrr (hsame ▸ heq)
          have hmerge := mergeLeft_unmatched hml hr hnm2
          have hrcols : runsSel.cols.filter (fun c => decide (c ≠ "#FusionName"))
              = ["Count_predicted"] := by
            rw [hselStruct]
            rfl
          rw [hrcols] at hmerge
          have hr1 : r ++ [("Count_predicted", Value.vNull)] ∈ m.rows := by
            simpa using hmerge.1
          have hval1 : getValD (r ++ [("Count_predicted", Value.vNull)]) "Count_predicted"
              = Value.vNull := by
            unfold getValD
            rw [getVal_append_right _ hcp]
            simp [getVal]
          have hr2 := fillnaColE_mem hfn hr1 hval1
          have hval2 : getValD (updateVal (r ++ [("Count_predicted", Value.vNull)])
              "Count_predicted" (Value.vInt 0)) "Count_predicted" = Value.vInt 0 := by
            unfold getValD
            rw [getVal_updateVal_self]
            rfl
          have hr3 := astypeIntColE_mem h hr2 hval2
          refine ⟨_, hr3, ?_, ?_⟩
          · exact getVal_updateVal_self _ _ _
          · intro c hc
            rw [getVal_updateVal_other _ _ hc, getVal_updateVal_other _ _ hc]
            refine getVal_append_pad ?_
            intro p hp
            rcases List.mem_singleton.mp hp with rfl
            exact fun hh => hc hh.symm
  · -- previous positives
    intro df pp out r _hne h hr hcp hnm
    unfold mergePrevPos at h
    cases hmiss : findMissing ["Specimen Identifier", "#FusionName"] pp.cols with
    | some c => rw [hmiss] at h; exact absurd h (by simp)
    | none =>
      rw [hmiss] at h
      dsimp only at h
      cases hagg : prevPosAggE pp with
      | error e => rw [hagg] at h; exact absurd h (by simp)
      | ok agg =>
        rw [hagg] at h
        dsimp only at h
        cases hml : mergeLeft df (aggFrame agg) "#FusionName" with
        | error e => rw [hml] at h; exact absurd h (by simp)
        | ok m =>
          rw [hml] at h
          dsimp only at h
          have hnm2 : ∀ rr2 ∈ (aggFrame agg).rows,
              ¬(getValD r "#FusionName" ≠ Value.vNull
                ∧ getValD rr2 "#FusionName" = getValD r "#FusionName") := by
            intro rr2 hrr2
            obtain ⟨p, hp, rfl⟩ := List.mem_map.mp hrr2
            rintro ⟨_hv, heq⟩
            obtain ⟨k, hk, hfk⟩ := mapE_ok_mem hagg p hp
            have hp1 : p.1 = k := by
              cases hlab : mapE (fun q =>
                  match q.2 with
                  | Value.vStr s => Except.ok s
                  | _ => Except.error "TypeError: join")
                  ((prevPosPairs pp).filter (fun q => decide (q.1 = k))) with
              | error e => rw [hlab] at hfk; exact absurd hfk (by simp)
              | ok labels =>
                rw [hlab] at hfk
                have := Except.ok.inj hfk
                rw [← this]
            have hkmem : k ∈ (prevPosPairs pp).map (fun q => q.1) :=
              mem_firstOcc.mp hk
            obtain ⟨q, hq, hq1⟩ := List.mem_map.mp hkmem
            have hval : getValD [("#FusionName", p.1), ("PreviousPositives", Value.vStr p.2)]
                "#FusionName" = p.1 := by
              simp [getValD, getVal]
            rw [hval] at heq
            exact hnm q hq (by rw [hq1, ← hp1, heq])
          have hmerge := mergeLeft_unmatched hml hr hnm2
          have hrcols : (aggFrame agg).cols.filter (fun c => decide (c ≠ "#FusionName"))
              = ["PreviousPositives"] := by
            rfl
          rw [hrcols] at hmerge
          have hr1 : r ++ [("PreviousPositives", Value.vNull)] ∈ m.rows := by
            simpa using hmerge.1
          have hval1 : getValD (r ++ [("PreviousPositives", Value.vNull)]) "PreviousPositives"
              = Value.vNull := by
            unfold getValD
            rw [getVal_append_right _ hcp]
            simp [getVal]
          have hr2 := fillnaColE_mem h hr1 hval1
          refine ⟨_, hr2, ?_, ?_⟩
          · exact getVal_updateVal_self _ _ _
          · intro c hc
            rw [getVal_updateVal_other _ _ hc]
            refine getVal_append_pad ?_
            intro p hp
            rcases List.mem_singleton.mp hp with rfl
            exact fun hh => hc hh.symm
  · -- reference sources
    intro df refs out r _hne hcols h hr hcp hnofn hnm
    unfold mergeRefSources at h
    cases hml : mergeLeft df (renameCol refs "Fusion" "#FusionName") "#FusionName" with
    | error e => rw [hml] at h; exact absurd h (by simp)
    | ok m =>
      rw [hml] at h
      dsimp only at h
      have hnm2 : ∀ rr2 ∈ (renameCol refs "Fusion" "#FusionName").rows,
          ¬(getValD r "#FusionName" ≠ Value.vNull
            ∧ getValD rr2 "#FusionName" = getValD r "#FusionName") := by
        intro rr2 hrr2
        obtain ⟨rr, hrr, rfl⟩ := List.mem_map.mp hrr2
        rintro ⟨_hv, heq⟩
        have hre : getValD (rr.map (fun p =>
            if p.1 = "Fusion" then ("#FusionName", p.2) else p)) "#FusionName"
            = getValD rr "Fusion" := by
          unfold getValD
          rw [getVal_renameRow (hnofn rr hrr)]
        rw [hre] at heq
        exact hnm rr hrr heq
      have hmerge := mergeLeft_unmatched hml hr hnm2
      have hrcols : (renameCol refs "Fusion" "#FusionName").cols.filter
          (fun c => decide (c ≠ "#FusionName")) = ["ReferenceSources"] := by
        unfold renameCol
        rw [hcols]
        rfl
      rw [hrcols] at hmerge
      have hr1 : r ++ [("ReferenceSources", Value.vNull)] ∈ m.rows := by
        simpa using hmerge.1
      have hval1 : getValD (r ++ [("ReferenceSources", Value.vNull)]) "ReferenceSources"
          = Value.vNull := by
        unfold getValD
        rw [getVal_append_right _ hcp]
        simp [getVal]
      have hr2 := fillnaColE_mem h hr1 hval1
      refine ⟨_, hr2, ?_, ?_⟩
      · exact getVal_updateVal_self _ _ _
      · intro c hc
        rw [getVal_updateVal_other _ _ hc]
        refine getVal_append_pad ?_
        intro p hp
        rcases List.mem_singleton.mp hp with rfl
        exact fun hh => hc hh.symm

/-- C5 witness: the three statements applied to a one-row frame whose
fusion X--Y matches none of the concrete registries. -/
theorem C5_witness :
    (∃ r' ∈ (⟨["#FusionName", "Count_predicted"],
        [[("#FusionName", Value.vStr "X--Y"), ("Count_predicted", Value.vInt 0)]]⟩
          : DataFrame).rows,
      getVal r' "Count_predicted" = some (Value.vInt 0)
        ∧ ∀ c, c ≠ "Count_predicted" →
            getVal r' c = getVal [("#FusionName", Value.vStr "X--Y")] c)
      ∧ (∃ r' ∈ (⟨["#FusionName", "PreviousPositives"],
          [[("#FusionName", Value.vStr "X--Y"), ("PreviousPositives", Value.vStr "")]]⟩
            : DataFrame).rows,
        getVal r' "PreviousPositives" = some (Value.vStr "")
          ∧ ∀ c, c ≠ "PreviousPositives" →
              getVal r' c = getVal [("#FusionName", Value.vStr "X--Y")] c)
      ∧ (∃ r' ∈ (⟨["#FusionName", "ReferenceSources"],
          [[("#FusionName", Value.vStr "X--Y"), ("ReferenceSources", Value.vStr "")]]⟩
            : DataFrame).rows,
        getVal r' "ReferenceSources" = some (Value.vStr "")
          ∧ ∀ c, c ≠ "ReferenceSources" →
              getVal r' c = getVal [("#FusionName", Value.vStr "X--Y")] c) := by
  refine ⟨?_, ?_, ?_⟩
  · exact C5_unmatched_neutral_defaults.1 c5df runsOne _
      [("#FusionName", Value.vStr "X--Y")] (by decide) (by decide) (by decide)
      (by decide) (by decide)
  · exact C5_unmatched_neutral_defaults.2.1 c5df ppOne _
      [("#FusionName", Value.vStr "X--Y")] (by decide) (by decide) (by decide)
      (by decide) (by decide)
  · exact C5_unmatched_neutral_defaults.2.2 c5df refsOne _
      [("#FusionName", Value.vStr "X--Y")] (by decide) (by decide) (by decide)
      (by decide) (by decide) (by decide) (by decide)

/-- C6 counterexample: the prior-positive aggregation inside
`make_sf_pivot` sorts but does not deduplicate; a registry naming
specimen SP1 twice for fusion A--B yields the summary string
`SP1,SP1`, whose comma-separated labels are not duplicate-free. -/
theorem C6_counterexample :
    (make_sf_pivot sfScenario runsOne fqcOne fiOne ppDup refsOne SF_PIVOT_CONFIG).map
        (fun pr => pr.1.rows.map (fun r => getValD r "PreviousPositives"))
      = Except.ok [Value.vStr "SP1,SP1"]
      ∧ (splitChar ',' "SP1,SP1".toList).map (fun g => String.mk g) = ["SP1", "SP1"]
      ∧ ¬ (["SP1", "SP1"] : List String).Nodup := by
  exact ⟨by decide, by decide, by decide⟩

/-- C7 counterexample: `parse_fusion_inspector` sorts by the read-support
columns in pandas default ascending order, not descending; the
lower-support row comes out first. -/
theorem C7_counterexample :
    (parse_fusion_inspector [fiFile]).map
        (fun d => d.rows.map (fun r => getValD r "JunctionReadCount"))
      = Except.ok [Value.vInt 1, Value.vInt 10]
      ∧ ([Value.vInt 1, Value.vInt 10] : List Value) ≠ [Value.vInt 10, Value.vInt 1] := by
  exact ⟨by decide, by decide⟩

/-- C6 amended: aggregating the reference-source registry
(`generate_ref_source`) yields, per fusion, a comma-join of
alphabetically sorted, duplicate-free labels; the prior-positive
aggregation inside `make_sf_pivot` yields a comma-join of alphabetically
sorted labels that keeps duplicates, as the concrete double entry shows. -/
theorem C6_amended :
    (∀ (pairs : List (String × String)) (k s : String),
        (k, s) ∈ generate_ref_source pairs →
        ∃ labels : List String,
          s = String.intercalate "," labels
            ∧ labels.Pairwise (fun a b => strKey a ≤ strKey b)
            ∧ labels.Nodup)
      ∧ (∀ (pp : DataFrame) (agg : List (Value × String)) (k : Value) (s : String),
          prevPosAggE pp = Except.ok agg → (k, s) ∈ agg →
          ∃ labels : List String,
            s = String.intercalate "," labels
              ∧ labels.Pairwise (fun a b => strKey a ≤ strKey b))
      ∧ prevPosAggE ppDup = Except.ok [(Value.vStr "A--B", "SP1,SP1")] := by
  refine ⟨?_, ?_, by decide⟩
  · intro pairs k s hmem
    unfold generate_ref_source at hmem
    obtain ⟨k0, _hk0, heq⟩ := List.mem_map.mp hmem
    have hs : s = String.intercalate "," (sortStrings
        (firstOcc ((pairs.filter (fun p => decide (p.1 = k0))).map (fun p => p.2)))) :=
      (congrArg Prod.snd heq).symm
    refine ⟨_, hs, sortStrings_pairwise _, ?_⟩
    exact ((sortStrings_perm _).nodup_iff).mpr (nodup_firstOcc _)
  · intro pp agg k s hagg hmem
    obtain ⟨k0, _hk0, hfk⟩ := mapE_ok_mem hagg (k, s) hmem
    revert hfk
    cases hlab : mapE (fun q =>
        match q.2 with
        | Value.vStr s2 => Except.ok s2
        | _ => Except.error "TypeError: join")
        ((prevPosPairs pp).filter (fun q => decide (q.1 = k0))) with
    | error e => intro hfk; exact absurd hfk (by simp)
    | ok labels =>
      intro hfk
      have h2 := Except.ok.inj hfk
      have hs : s = String.intercalate "," (sortStrings labels) :=
        (congrArg Prod.snd h2).symm
      exact ⟨sortStrings labels, hs, sortStrings_pairwise _⟩

/-- C6 witness: the amended statement applied at concrete registries. -/
theorem C6_witness :
    (∃ labels : List String,
        "COSMIC,ChimerKB4" = String.intercalate "," labels
          ∧ labels.Pairwise (fun a b => strKey a ≤ strKey b)
          ∧ labels.Nodup)
      ∧ ∃ labels : List String,
          "SP1,SP1" = String.intercalate "," labels
            ∧ labels.Pairwise (fun a b => strKey a ≤ strKey b) :=
  ⟨C6_amended.1 [("A--B", "COSMIC"), ("A--B", "ChimerKB4"), ("A--B", "COSMIC")]
      "A--B" "COSMIC,ChimerKB4" (by decide),
   C6_amended.2.1 ppDup [(Value.vStr "A--B", "SP1,SP1")] (Value.vStr "A--B") "SP1,SP1"
      (by decide) (by decide)⟩

/-- C7 amended: `parse_fusion_inspector` rewrites the origin-filename
column to the prefix before the first underscore plus the companion
predictor suffix, and removes duplicate rows after sorting by
(JunctionReadCount, SpanningFragCount) in pandas default **ascending**
order (the specification says descending). -/
theorem C7_amended :
    (∀ files df, parse_fusion_inspector files = Except.ok df →
        df.rows.Nodup
          ∧ df.rows.Pairwise (rowLe false ["JunctionReadCount", "SpanningFragCount"])
          ∧ ∀ r ∈ df.rows, ∀ s, getVal r "file_name" = some (Value.vStr s) →
              ∃ p : List Char, ('_' ∉ p)
                ∧ s = String.mk p ++ "_FusionInspector.fusions.abridged.merged.tsv")
      ∧ (parse_fusion_inspector [fiFile]).map
          (fun d => d.rows.map (fun r => getValD r "file_name"))
        = Except.ok
            [Value.vStr "S1_FusionInspector.fusions.abridged.merged.tsv",
             Value.vStr "S1_FusionInspector.fusions.abridged.merged.tsv"] := by
  refine ⟨?_, by decide⟩
  intro files df h
  unfold parse_fusion_inspector at h
  revert h
  cases happ : applyColE (_parse_fusion_files files) "file_name" "file_name"
      (fun v => Except.ok (fiNameValue v)) with
  | error e => intro h; dsimp only at h; exact absurd h (by simp)
  | ok d1 =>
    intro h
    dsimp only at h
    revert h
    cases hsort : sortValuesE d1 ["JunctionReadCount", "SpanningFragCount"] false with
    | error e => intro h; dsimp only at h; exact absurd h (by simp)
    | ok ds =>
      intro h
      dsimp only at h
      have hout := Except.ok.inj h
      subst hout
      have hsorted := (sortValuesE_ok hsort).2.1
      refine ⟨nodup_firstOcc _, ?_, ?_⟩
      · have hp : ds.rows.Pairwise
            (rowLe false ["JunctionReadCount", "SpanningFragCount"]) := by
          rw [hsorted]
          exact List.sorted_insertionSort _ _
        exact hp.sublist (firstOcc_sublist _)
      · intro r hr s hs
        have hr2 : r ∈ ds.rows := (firstOcc_sublist _).mem hr
        have hr3 : r ∈ d1.rows := by
          rw [hsorted] at hr2
          exact (List.perm_insertionSort _ _).mem_iff.mp hr2
        obtain ⟨r0, _hr0, v, hfv, rfl⟩ := (applyColE_ok happ).1 r hr3
        have hv : v = fiNameValue (getValD r0 "file_name") := (Except.ok.inj hfv).symm
        rw [getVal_updateVal_self] at hs
        have hvs : v = Value.vStr s := Option.some.inj hs
        rw [hvs] at hv
        revert hv
        cases hval : getValD r0 "file_name" with
        | vStr s0 =>
          intro hv
          unfold fiNameValue at hv
          have hseq := Value.vStr.inj hv
          refine ⟨s0.toList.takeWhile (fun c => !(c = '_')), ?_, hseq⟩
          intro hmem
          have := List.mem_takeWhile_imp hmem
          simp at this
        | vNull => intro hv; exact absurd hv (by simp [fiNameValue])
        | vInt n => intro hv; exact absurd hv (by simp [fiNameValue])
        | vRat q => intro hv; exact absurd hv (by simp [fiNameValue])
        | vStrList l => intro hv; exact absurd hv (by simp [fiNameValue])

/-- C7 witness: the amended statement applied at the two-row concrete
file. -/
theorem C7_witness :
    ∃ df, parse_fusion_inspector [fiFile] = Except.ok df
      ∧ df.rows.Nodup
      ∧ df.rows.Pairwise (rowLe false ["JunctionReadCount", "SpanningFragCount"]) := by
  cases hpf : parse_fusion_inspector [fiFile] with
  | error e =>
    exfalso
    have h3 : (parse_fusion_inspector [fiFile]).toOption = none := by rw [hpf]; rfl
    have h4 : (parse_fusion_inspector [fiFile]).toOption ≠ none := by decide
    exact h4 h3
  | ok df =>
    have hspec := C7_amended.1 [fiFile] df hpf
    exact ⟨df, rfl, hspec.1, hspec.2.1⟩

/-- C8: the summary construction of `make_sf_pivot` (sort by FFPM
ascending with nulls first, group by the configured keys taking the
first entry per value column, re-sort) is idempotent: applied to its own
output it reproduces exactly the same single row per group, the whole
table being reproduced up to row order. -/
theorem C8_sortGroupFirst_idempotent (cfg : PivotConfig) (t out : DataFrame)
    (hnd : (cfg.index ++ cfg.values).Nodup)
    (hff : "FFPM" ∈ cfg.index ++ cfg.values)
    (h1 : sortGroupFirst cfg t = Except.ok out) :
    ∃ out2, sortGroupFirst cfg out = Except.ok out2
      ∧ out2.rows.Perm out.rows ∧ out2.cols = out.cols := by
  have keysNodup : cfg.index.Nodup := hnd.of_append_left
  have hdisj : ∀ c ∈ cfg.values, c ∉ cfg.index := by
    intro c hcv hck
    exact (List.disjoint_of_nodup_append hnd) hck hcv
  -- invert the first application
  unfold sortGroupFirst at h1
  revert h1
  cases hds : sortValuesE t ["FFPM"] true with
  | error e => intro h1; dsimp only at h1; exact absurd h1 (by simp)
  | ok ds =>
    intro h1
    dsimp only at h1
    revert h1
    cases hp : groupbyFirstE cfg.index cfg.values ds with
    | error e => intro h1; dsimp only at h1; exact absurd h1 (by simp)
    | ok p =>
      intro h1
      dsimp only at h1
      obtain ⟨hpcols, hprows, _hpk, _hpv⟩ := groupbyFirstE_ok hp
      obtain ⟨houtcols, houtrows, hSL⟩ := sortValuesE_ok h1
      have hlenOf : ∀ k ∈ firstOcc (ds.rows.map (keyOf cfg.index)),
          k.length = cfg.index.length := by
        intro k hk
        obtain ⟨r0, _, hr0⟩ := List.mem_map.mp (mem_firstOcc.mp hk)
        rw [← hr0]
        unfold keyOf
        exact List.length_map _ _
      -- the key tuples of the produced summary are pairwise distinct
      have hmapkeys : p.rows.map (keyOf cfg.index)
          = firstOcc (ds.rows.map (keyOf cfg.index)) := by
        rw [hprows, List.map_map]
        calc (firstOcc (ds.rows.map (keyOf cfg.index))).map
              (keyOf cfg.index ∘ buildRow cfg.index cfg.values ds.rows)
            = (firstOcc (ds.rows.map (keyOf cfg.index))).map id :=
              List.map_congr_left (fun k hk => keyOf_buildRow keysNodup (hlenOf k hk))
          _ = firstOcc (ds.rows.map (keyOf cfg.index)) := List.map_id _
      have hpnodup : (p.rows.map (keyOf cfg.index)).Nodup := by
        rw [hmapkeys]
        exact nodup_firstOcc _
      have hto : out.rows.Perm p.rows := by
        rw [houtrows]
        exact List.perm_insertionSort _ _
      -- the second application, step by step
      have hm1 : findMissing ["FFPM"] out.cols = none := by
        refine findMissing_none_iff.mpr ?_
        intro c hc
        rcases List.mem_singleton.mp hc with rfl
        rw [houtcols, hpcols]
        exact hff
      have hs1 : sortValuesE out ["FFPM"] true
          = Except.ok ⟨out.cols, out.rows.insertionSort (rowLe true ["FFPM"])⟩ := by
        unfold sortValuesE
        rw [hm1]
      have hperm2 : (out.rows.insertionSort (rowLe true ["FFPM"])).Perm p.rows :=
        (List.perm_insertionSort _ _).trans hto
      have hnodup2 : ((out.rows.insertionSort (rowLe true ["FFPM"])).map
          (keyOf cfg.index)).Nodup :=
        ((hperm2.map (keyOf cfg.index)).nodup_iff).mpr hpnodup
      have hm2 : findMissing cfg.index out.cols = none := by
        refine findMissing_none_iff.mpr ?_
        intro c hc
        rw [houtcols, hpcols]
        exact List.mem_append_left _ hc
      have hm3 : findMissing cfg.values out.cols = none := by
        refine findMissing_none_iff.mpr ?_
        intro c hc
        rw [houtcols, hpcols]
        exact List.mem_append_right _ hc
      -- every summary row rebuilds to itself
      have hG : ∀ r ∈ out.rows.insertionSort (rowLe true ["FFPM"]),
          buildRow cfg.index cfg.values (out.rows.insertionSort (rowLe true ["FFPM"]))
            (keyOf cfg.index r) = r := by
        intro r hr
        have hfil : (out.rows.insertionSort (rowLe true ["FFPM"])).filter
            (fun b => decide (keyOf cfg.index b = keyOf cfg.index r)) = [r] :=
          filter_singleton_self hnodup2 hr
        have hrp : r ∈ p.rows := hperm2.mem_iff.mp hr
        rw [hprows] at hrp
        obtain ⟨k0, hk0, hreq⟩ := List.mem_map.mp hrp
        have hkeq : keyOf cfg.index r = k0 := by
          rw [← hreq]
          exact keyOf_buildRow keysNodup (hlenOf k0 hk0)
        have hbuild : buildRow cfg.index cfg.values
            (out.rows.insertionSort (rowLe true ["FFPM"])) (keyOf cfg.index r)
            = cfg.index.zip (keyOf cfg.index r)
              ++ cfg.values.map (fun c => (c, firstNonNull [getValD r c])) := by
          unfold buildRow
          rw [hfil]
          rfl
        rw [hbuild, hkeq]
        calc cfg.index.zip k0
              ++ cfg.values.map (fun c => (c, firstNonNull [getValD r c]))
            = cfg.index.zip k0 ++ cfg.values.map (fun c => (c, getValD r c)) := by
              congr 1
              refine List.map_congr_left ?_
              intro c _hc
              rw [firstNonNull_single]
          _ = cfg.index.zip k0
              ++ cfg.values.map (fun c => (c,
                firstNonNull ((ds.rows.filter
                  (fun r2 => decide (keyOf cfg.index r2 = k0))).map
                    (fun r2 => getValD r2 c)))) := by
              congr 1
              refine List.map_congr_left ?_
              intro c hc
              have hval : getValD r c
                  = firstNonNull ((ds.rows.filter
                      (fun r2 => decide (keyOf cfg.index r2 = k0))).map
                        (fun r2 => getValD r2 c)) := by
                rw [← hreq]
                exact getValD_buildRow_val hc (hdisj c hc)
              rw [hval]
          _ = buildRow cfg.index cfg.values ds.rows k0 := rfl
          _ = r := hreq
      have hs2rows : (firstOcc ((out.rows.insertionSort (rowLe true ["FFPM"])).map
          (keyOf cfg.index))).map (buildRow cfg.index cfg.values
            (out.rows.insertionSort (rowLe true ["FFPM"])))
          = out.rows.insertionSort (rowLe true ["FFPM"]) := by
        rw [firstOcc_eq_self hnodup2, List.map_map]
        calc (out.rows.insertionSort (rowLe true ["FFPM"])).map
              (buildRow cfg.index cfg.values
                (out.rows.insertionSort (rowLe true ["FFPM"])) ∘ keyOf cfg.index)
            = (out.rows.insertionSort (rowLe true ["FFPM"])).map id :=
              List.map_congr_left hG
          _ = out.rows.insertionSort (rowLe true ["FFPM"]) := List.map_id _
      have hs2 : groupbyFirstE cfg.index cfg.values
          ⟨out.cols, out.rows.insertionSort (rowLe true ["FFPM"])⟩
          = Except.ok ⟨cfg.index ++ cfg.values,
              out.rows.insertionSort (rowLe true ["FFPM"])⟩ := by
        unfold groupbyFirstE
        rw [hm2, hm3]
        dsimp only
        rw [hs2rows]
      have hm4 : findMissing ["SPECIMEN", "LEFTRIGHT"] (cfg.index ++ cfg.values)
          = none := by
        refine findMissing_none_iff.mpr ?_
        intro c hc
        have := hSL c hc
        rw [hpcols] at this
        exact this
      have hs3 : sortValuesE
          ⟨cfg.index ++ cfg.values, out.rows.insertionSort (rowLe true ["FFPM"])⟩
          ["SPECIMEN", "LEFTRIGHT"] true
          = Except.ok ⟨cfg.index ++ cfg.values,
              (out.rows.insertionSort (rowLe true ["FFPM"])).insertionSort
                (rowLe true ["SPECIMEN", "LEFTRIGHT"])⟩ := by
        unfold sortValuesE
        rw [hm4]
      refine ⟨⟨cfg.index ++ cfg.values,
          (out.rows.insertionSort (rowLe true ["FFPM"])).insertionSort
            (rowLe true ["SPECIMEN", "LEFTRIGHT"])⟩, ?_, ?_, ?_⟩
      · unfold sortGroupFirst
        rw [hs1]
        dsimp only
        rw [hs2]
        dsimp only
        rw [hs3]
      · exact (List.perm_insertionSort _ _).trans (List.perm_insertionSort _ _)
      · rw [houtcols, hpcols]

/-- C8 witness: idempotence applied to a two-row concrete joined table
under the shipped pivot configuration. -/
theorem C8_witness :
    ∃ out, sortGroupFirst SF_PIVOT_CONFIG
        ⟨SF_PIVOT_CONFIG.index ++ SF_PIVOT_CONFIG.values,
         [[("SPECIMEN", Value.vStr "S"), ("LEFTRIGHT", Value.vStr "L"),
           ("FFPM", Value.vRat 2)],
          [("SPECIMEN", Value.vStr "S"), ("LEFTRIGHT", Value.vStr "L"),
           ("FFPM", Value.vRat 1)]]⟩ = Except.ok out
      ∧ ∃ out2, sortGroupFirst SF_PIVOT_CONFIG out = Except.ok out2
          ∧ out2.rows.Perm out.rows ∧ out2.cols = out.cols := by
  cases hrun : sortGroupFirst SF_PIVOT_CONFIG
      ⟨SF_PIVOT_CONFIG.index ++ SF_PIVOT_CONFIG.values,
       [[("SPECIMEN", Value.vStr "S"), ("LEFTRIGHT", Value.vStr "L"),
         ("FFPM", Value.vRat 2)],
        [("SPECIMEN", Value.vStr "S"), ("LEFTRIGHT", Value.vStr "L"),
         ("FFPM", Value.vRat 1)]]⟩ with
  | error e =>
    exfalso
    have h3 : (sortGroupFirst SF_PIVOT_CONFIG
        ⟨SF_PIVOT_CONFIG.index ++ SF_PIVOT_CONFIG.values,
         [[("SPECIMEN", Value.vStr "S"), ("LEFTRIGHT", Value.vStr "L"),
           ("FFPM", Value.vRat 2)],
          [("SPECIMEN", Value.vStr "S"), ("LEFTRIGHT", Value.vStr "L"),
           ("FFPM", Value.vRat 1)]]⟩).toOption = none := by
      rw [hrun]
      rfl
    have h4 : (sortGroupFirst SF_PIVOT_CONFIG
        ⟨SF_PIVOT_CONFIG.index ++ SF_PIVOT_CONFIG.values,
         [[("SPECIMEN", Value.vStr "S"), ("LEFTRIGHT", Value.vStr "L"),
           ("FFPM", Value.vRat 2)],
          [("SPECIMEN", Value.vStr "S"), ("LEFTRIGHT", Value.vStr "L"),
           ("FFPM", Value.vRat 1)]]⟩).toOption ≠ none := by
      decide
    exact h4 h3
  | ok out =>
    exact ⟨out, rfl, C8_sortGroupFirst_idempotent SF_PIVOT_CONFIG _ out (by decide)
      (by decide) hrun⟩

/-- C9 counterexample: the components do mutate caller tables named by the
claim.  `make_fastqc_pivot` adds a SPECIMEN column to the raw FastQC
frame in place, and `make_sf_pivot` adds a LEFTRIGHT column to the
Fusion Inspector frame in place. -/
theorem C9_counterexample :
    (make_fastqc_pivot fqcRaw FASTQC_PIVOT_CONFIG).map Prod.snd = Except.ok fqcRawAfter
      ∧ fqcRawAfter ≠ fqcRaw
      ∧ (make_sf_pivot sfScenario runsOne fqcOne fiOne ppOne refsOne SF_PIVOT_CONFIG).map
          Prod.snd = Except.ok fiOneAfter
      ∧ fiOneAfter ≠ fiOne := by
  exact ⟨by decide, by decide, by decide, by decide⟩

/-- C9 amended: the pipeline mutates exactly two caller tables in place.
`make_fastqc_pivot` appends a derived SPECIMEN column to its raw FastQC
input, and `make_sf_pivot` appends a derived LEFTRIGHT column to a
non-empty Fusion Inspector input (leaving an empty one untouched);
`make_sf_pivot` never mutates the primary `sf_df` (it works on a copy)
nor the other registries, each cell of the mutated frames outside the
appended column keeping its value. -/
theorem C9_amended :
    (∀ (df : DataFrame) (cfg : PivotConfig) (p df2 : DataFrame),
        make_fastqc_pivot df cfg = Except.ok (p, df2) →
        "SPECIMEN" ∉ df.cols →
        df2.cols = df.cols ++ ["SPECIMEN"]
          ∧ ∀ r2 ∈ df2.rows, ∃ r ∈ df.rows,
              ∀ c, c ≠ "SPECIMEN" → getVal r2 c = getVal r c)
      ∧ (∀ (sf runs fqc fi pp refs : DataFrame) (cfg : PivotConfig) (P fi2 : DataFrame),
          make_sf_pivot sf runs fqc fi pp refs cfg = Except.ok (P, fi2) →
          fi.isEmpty = true → fi2 = fi)
      ∧ (∀ (sf runs fqc fi pp refs : DataFrame) (cfg : PivotConfig) (P fi2 : DataFrame),
          make_sf_pivot sf runs fqc fi pp refs cfg = Except.ok (P, fi2) →
          fi.isEmpty = false → "LEFTRIGHT" ∉ fi.cols →
          fi2.cols = fi.cols ++ ["LEFTRIGHT"]
            ∧ ∀ r2 ∈ fi2.rows, ∃ r ∈ fi.rows,
                ∀ c, c ≠ "LEFTRIGHT" → getVal r2 c = getVal r c) := by
  refine ⟨?_, ?_, ?_⟩
  · intro df cfg p df2 h hnot
    unfold make_fastqc_pivot at h
    revert h
    cases happ : applyColE df "Sample" "SPECIMEN" specimenValue with
    | error e => intro h; dsimp only at h; exact absurd h (by simp)
    | ok d1 =>
      intro h
      dsimp only at h
      revert h
      cases hpv : create_pivot_table d1 cfg with
      | error e => intro h; dsimp only at h; exact absurd h (by simp)
      | ok p0 =>
        intro h
        dsimp only at h
        have hpair := Except.ok.inj h
        have hd : d1 = df2 := congrArg Prod.snd hpair
        subst hd
        obtain ⟨hrows, hcols⟩ := applyColE_ok happ
        refine ⟨by rw [hcols, if_neg hnot], ?_⟩
        intro r2 hr2
        obtain ⟨r0, hr0, v, _hv, rfl⟩ := hrows r2 hr2
        exact ⟨r0, hr0, fun c hc => getVal_updateVal_other _ _ hc⟩
  · intro sf runs fqc fi pp refs cfg P fi2 h hempty
    obtain ⟨d5, fiRes, hfi, hsnd⟩ := make_sf_pivot_snd h
    unfold mergeFI at hfi
    rw [if_pos hempty] at hfi
    have := Except.ok.inj hfi
    rw [hsnd, ← this]
  · intro sf runs fqc fi pp refs cfg P fi2 h hempty hnot
    obtain ⟨d5, fiRes, hfi, hsnd⟩ := make_sf_pivot_snd h
    unfold mergeFI at hfi
    rw [if_neg (by rw [hempty]; exact Bool.false_ne_true)] at hfi
    revert hfi
    cases hcc : concatColsE fi "LeftBreakpoint" "RightBreakpoint" "LEFTRIGHT" "_" with
    | error e => intro hfi; dsimp only at hfi; exact absurd hfi (by simp)
    | ok fi3 =>
      intro hfi
      dsimp only at hfi
      revert hfi
      cases hfs : selectColsE fi3 ["LEFTRIGHT", "PROT_FUSION_TYPE"] with
      | error e => intro hfi; dsimp only at hfi; exact absurd hfi (by simp)
      | ok fiSel =>
        intro hfi
        dsimp only at hfi
        revert hfi
        cases hmm : mergeLeft d5 fiSel "LEFTRIGHT" with
        | error e => intro hfi; dsimp only at hfi; exact absurd hfi (by simp)
        | ok m =>
          intro hfi
          dsimp only at hfi
          have hpair := Except.ok.inj hfi
          have hfieq : fi2 = fi3 := by
            rw [hsnd, ← hpair]
          subst hfieq
          constructor
          · rw [concatColsE_ok_cols hcc, if_neg hnot]
          · -- row correspondence through the column assignment
            intro r2 hr2
            unfold concatColsE at hcc
            split at hcc
            · split at hcc
              · revert hcc
                cases hrows : mapE (fun r =>
                    match concatStrVals "_" (getValD r "LeftBreakpoint")
                        (getValD r "RightBreakpoint") with
                    | Except.error e => Except.error e
                    | Except.ok v => Except.ok (updateVal r "LEFTRIGHT" v)) fi.rows with
                | error e => intro hcc; exact absurd hcc (by simp)
                | ok rows =>
                  intro hcc
                  have hout := Except.ok.inj hcc
                  have hr2' : r2 ∈ rows := by
                    rw [← hout] at hr2
                    exact hr2
                  obtain ⟨r0, hr0, hfr0⟩ := mapE_ok_mem hrows r2 hr2'
                  revert hfr0
                  cases hcv : concatStrVals "_" (getValD r0 "LeftBreakpoint")
                      (getValD r0 "RightBreakpoint") with
                  | error e => intro hfr0; exact absurd hfr0 (by simp)
                  | ok v =>
                    intro hfr0
                    have hr2eq := Except.ok.inj hfr0
                    refine ⟨r0, hr0, ?_⟩
                    intro c hc
                    rw [← hr2eq]
                    exact getVal_updateVal_other _ _ hc
              · exact absurd hcc (by simp)
            · exact absurd hcc (by simp)

/-- C9 witness: the amended statement applied to the concrete frames of
the mutation counterexample. -/
theorem C9_witness :
    (fqcRawAfter.cols = fqcRaw.cols ++ ["SPECIMEN"]
        ∧ ∀ r2 ∈ fqcRawAfter.rows, ∃ r ∈ fqcRaw.rows,
            ∀ c, c ≠ "SPECIMEN" → getVal r2 c = getVal r c)
      ∧ (fiOneAfter.cols = fiOne.cols ++ ["LEFTRIGHT"]
        ∧ ∀ r2 ∈ fiOneAfter.rows, ∃ r ∈ fiOne.rows,
            ∀ c, c ≠ "LEFTRIGHT" → getVal r2 c = getVal r c) := by
  constructor
  · exact C9_amended.1 fqcRaw FASTQC_PIVOT_CONFIG
      ⟨["SPECIMEN", "Duplicate Reads(M)", "Unique Reads(M)"],
        [[("SPECIMEN", Value.vStr "SPEC1"), ("Duplicate Reads(M)", Value.vInt 2),
          ("Unique Reads(M)", Value.vInt 1)],
         [("SPECIMEN", Value.vStr "Total"), ("Duplicate Reads(M)", Value.vInt 2),
          ("Unique Reads(M)", Value.vInt 1)]]⟩
      fqcRawAfter (by decide) (by decide)
  · cases hrun : make_sf_pivot sfScenario runsOne fqcOne fiOne ppOne refsOne
        SF_PIVOT_CONFIG with
    | error e =>
      exfalso
      have h3 : (make_sf_pivot sfScenario runsOne fqcOne fiOne ppOne refsOne
          SF_PIVOT_CONFIG).toOption = none := by
        rw [hrun]
        rfl
      have h4 : (make_sf_pivot sfScenario runsOne fqcOne fiOne ppOne refsOne
          SF_PIVOT_CONFIG).toOption ≠ none := by decide
      exact h4 h3
    | ok pr =>
      have hsnd : pr.2 = fiOneAfter := by
        have h3 : (make_sf_pivot sfScenario runsOne fqcOne fiOne ppOne refsOne
            SF_PIVOT_CONFIG).map Prod.snd = Except.ok fiOneAfter := by decide
        rw [hrun] at h3
        exact Except.ok.inj h3
      have := C9_amended.2.2 sfScenario runsOne fqcOne fiOne ppOne refsOne
        SF_PIVOT_CONFIG pr.1 pr.2 (by rw [hrun]) (by decide) (by decide)
      rw [hsnd] at this
      exact this

/-- C10: the pivot takes, independently per value column, the first
non-null value of the group after the FFPM-ascending sort, not the value
of the first row: whenever some row of a group has a non-null entry, the
summary row of that group is non-null there; concretely, a group whose
lower-FFPM row has a null fusion name yields a single summary row whose
FFPM and JunctionReadCount come from the first sorted row while its
fusion name comes from the second. -/
theorem C10_first_non_null :
    (∀ (keys vals : List String) (df out : DataFrame) (r : Row) (c : String),
        groupbyFirstE keys vals df = Except.ok out →
        keys.Nodup →
        r ∈ df.rows → c ∈ vals → c ∉ keys →
        getValD r c ≠ Value.vNull →
        ∃ r2 ∈ out.rows, keyOf keys r2 = keyOf keys r ∧ getValD r2 c ≠ Value.vNull)
      ∧ (make_sf_pivot sfTwoRows runsOne fqcOne fiOne ppOne refsOne SF_PIVOT_CONFIG).map
          (fun pr => pr.1.rows.map (fun r =>
            (getValD r "FFPM", getValD r "#FusionName", getValD r "JunctionReadCount")))
        = Except.ok [(Value.vRat 1, Value.vStr "A--B", Value.vInt 10)] := by
  constructor
  · intro keys vals df out r c h hnd hr hcv hck hnn
    obtain ⟨_hcols, hrows, _⟩ := groupbyFirstE_ok h
    have hklen : (keyOf keys r).length = keys.length := by
      unfold keyOf
      exact List.length_map _ _
    have hkmem : keyOf keys r ∈ firstOcc (df.rows.map (keyOf keys)) :=
      mem_firstOcc.mpr (List.mem_map_of_mem _ hr)
    refine ⟨buildRow keys vals df.rows (keyOf keys r), ?_, ?_, ?_⟩
    · rw [hrows]
      exact List.mem_map_of_mem _ hkmem
    · exact keyOf_buildRow hnd hklen
    · rw [getValD_buildRow_val hcv hck]
      have hrgrp : r ∈ df.rows.filter
          (fun r2 => decide (keyOf keys r2 = keyOf keys r)) :=
        List.mem_filter.mpr ⟨hr, by simp⟩
      exact firstNonNull_ne_null (List.mem_map_of_mem _ hrgrp) hnn
  · decide

/-- C10 witness: a two-row group whose first row has a null value cell
still produces a non-null summary cell. -/
theorem C10_witness :
    ∃ r2 ∈ (⟨["SPECIMEN", "FRAME"],
        [[("SPECIMEN", Value.vStr "S"), ("FRAME", Value.vStr "IF")]]⟩
          : DataFrame).rows,
      keyOf ["SPECIMEN"] r2
          = keyOf ["SPECIMEN"] [("SPECIMEN", Value.vStr "S"), ("FRAME", Value.vStr "IF")]
        ∧ getValD r2 "FRAME" ≠ Value.vNull :=
  C10_first_non_null.1 ["SPECIMEN"] ["FRAME"]
    ⟨["SPECIMEN", "FRAME"],
      [[("SPECIMEN", Value.vStr "S"), ("FRAME", Value.vNull)],
       [("SPECIMEN", Value.vStr "S"), ("FRAME", Value.vStr "IF")]]⟩
    ⟨["SPECIMEN", "FRAME"],
      [[("SPECIMEN", Value.vStr "S"), ("FRAME", Value.vStr "IF")]]⟩
    [("SPECIMEN", Value.vStr "S"), ("FRAME", Value.vStr "IF")] "FRAME"
    (by decide) (by decide) (by decide) (by decide) (by decide) (by decide)

end FusionWB
